import Mathlib

/-!
# Verification of the CPU-Scheduler simulation core

Shallow embedding of the Breezy1214/CPU-Scheduler C++ repository:
the `Process` state machine (`src/Process.cpp`, `include/Process.h`),
the shared scheduler helpers (`src/Scheduler.cpp`), and the four dispatch
algorithms (RoundRobinScheduler.cpp, PriorityScheduler.cpp,
MultilevelQueueScheduler.cpp, MultilevelFeedbackQueueScheduler.cpp).

Conventions of the embedding:
* C++ `int` fields are modelled as `Int`; the source never exercises
  wrap-around on the scheduling quantities, so unbounded integers are used.
* C++ `double` metrics are modelled as `Rat`; every metric computed by the
  source on the inputs considered here is exact in binary floating point,
  so the rational value agrees with the double value.
* The display-only `name` strings of processes are omitted: no scheduling
  decision reads them.
* The simulation `while` loops are modelled with explicit fuel; a step
  function is iterated `fuel` times and stops early once the loop guard
  fails, mirroring the C++ loop exactly on every terminating execution.
* Write-only bookkeeping (`MultilevelFeedbackQueueScheduler::processQueueMap`
  and `timeInQueue`, which are never read by any scheduling decision) is
  not carried in the state.
-/

namespace CPUSched

/-- `ProcessState` from include/Process.h. -/
inductive ProcessState where
  | NEW
  | READY
  | RUNNING
  | WAITING
  | TERMINATED
deriving Repr, DecidableEq

/-- The `Process` record from include/Process.h (display name omitted). -/
structure Process where
  pid : Int
  priority : Int
  burstTime : Int
  remainingTime : Int
  arrivalTime : Int
  waitingTime : Int
  turnaroundTime : Int
  responseTime : Int
  completionTime : Int
  queueLevel : Int
  hasStarted : Bool
  state : ProcessState
deriving Repr, DecidableEq

/-- The parameterized constructor `Process::Process(pid, priority, burstTime,
arrivalTime, name)` from src/Process.cpp. -/
def mkProcess (pid priority burstTime arrivalTime : Int) : Process :=
  { pid := pid
    priority := priority
    burstTime := burstTime
    remainingTime := burstTime
    arrivalTime := arrivalTime
    waitingTime := 0
    turnaroundTime := 0
    responseTime := -1
    completionTime := 0
    queueLevel := 0
    hasStarted := false
    state := ProcessState.NEW }

/-- `Process::execute(timeSlice)` from src/Process.cpp.  Returns the value
returned by the C++ member function together with the mutated process. -/
def Process.execute (p : Process) (timeSlice : Int) : Int × Process :=
  if p.remainingTime = 0 then
    (0, p)
  else
    let p1 := { p with hasStarted := true }
    let executedTime := min timeSlice p.remainingTime
    let p2 := { p1 with
                remainingTime := p.remainingTime - executedTime
                state := ProcessState.RUNNING }
    let p3 := if p2.remainingTime = 0 then
                { p2 with state := ProcessState.TERMINATED }
              else p2
    (executedTime, p3)

/-- `Process::reset()` from src/Process.cpp. -/
def Process.reset (p : Process) : Process :=
  { p with
    remainingTime := p.burstTime
    waitingTime := 0
    turnaroundTime := 0
    responseTime := -1
    completionTime := 0
    queueLevel := 0
    hasStarted := false
    state := ProcessState.NEW }

/-- `Process::isCompleted()` from include/Process.h. -/
def Process.isCompleted (p : Process) : Bool :=
  p.remainingTime == 0

/-- Iterated `execute` calls: fold a list of time slices through a process,
keeping only the mutated process. -/
def executeSeq (p : Process) (slices : List Int) : Process :=
  slices.foldl (fun q t => (q.execute t).2) p

/-- `ExecutionEvent` from include/Scheduler.h. -/
structure ExecutionEvent where
  processId : Int
  startTime : Int
  endTime : Int
  isContextSwitch : Bool
  description : String
deriving Repr, DecidableEq

/-- `SchedulerConfig` from include/Scheduler.h.  `numQueues` is kept as a
`Nat` because it sizes the queue containers. -/
structure SchedulerConfig where
  timeQuantum : Int := 4
  contextSwitchTime : Int := 1
  numQueues : Nat := 3
  quantums : List Int := []
  agingEnabled : Bool := true
  agingThreshold : Int := 10
deriving Repr, DecidableEq

/-- The `Metrics` record from include/Metrics.h.  The averages, utilization
and throughput are rationals standing for the C++ doubles. -/
structure Metrics where
  waitingTimes : List Int := []
  turnaroundTimes : List Int := []
  responseTimes : List Int := []
  avgWaitingTime : Rat := 0
  avgTurnaroundTime : Rat := 0
  avgResponseTime : Rat := 0
  cpuUtilization : Rat := 0
  throughput : Rat := 0
  totalExecutionTime : Int := 0
  totalIdleTime : Int := 0
  totalContextSwitches : Int := 0
  contextSwitchOverhead : Int := 0
  processCount : Int := 0
deriving Repr, DecidableEq

/-- Idle time computed from the timeline in `Scheduler::calculateMetrics`
(src/Scheduler.cpp): gaps between consecutive non-idle, non-context-switch
events.  The fold carries `(idleTime, lastEndTime)`, both starting at 0. -/
def timelineIdleTime (timeline : List ExecutionEvent) : Int :=
  (timeline.foldl
    (fun acc e =>
      if !e.isContextSwitch && e.processId ≥ 0 then
        (acc.1 + (if e.startTime > acc.2 then e.startTime - acc.2 else 0),
         e.endTime)
      else acc)
    ((0 : Int), (0 : Int))).1

/-- `Scheduler::calculateMetrics` from src/Scheduler.cpp combined with the
`Metrics` member functions it invokes (`calculateAverages`,
`setTotalContextSwitches`, `calculateUtilization`, `calculateThroughput`
from src/Metrics.cpp). -/
def calculateMetrics (processes : List Process) (timeline : List ExecutionEvent)
    (contextSwitches : Int) (contextSwitchTime : Int) (currentTime : Int) :
    Metrics :=
  let waitingTimes := processes.map (·.waitingTime)
  let turnaroundTimes := processes.map (·.turnaroundTime)
  let responseTimes := processes.map (·.responseTime)
  let idleTime := timelineIdleTime timeline
  let processCount : Int := waitingTimes.length
  let avgWaitingTime : Rat :=
    if processCount > 0 then
      ((waitingTimes.foldl (· + ·) 0 : Int) : Rat) / (processCount : Rat)
    else 0
  let avgTurnaroundTime : Rat :=
    if processCount > 0 then
      ((turnaroundTimes.foldl (· + ·) 0 : Int) : Rat) / (processCount : Rat)
    else 0
  let avgResponseTime : Rat :=
    if processCount > 0 then
      ((responseTimes.foldl (· + ·) 0 : Int) : Rat) / (processCount : Rat)
    else 0
  let overhead := contextSwitches * contextSwitchTime
  let cpuUtilization : Rat :=
    if currentTime > 0 then
      (((currentTime - idleTime - overhead : Int) : Rat) /
        ((currentTime : Int) : Rat)) * 100
    else 0
  let throughput : Rat :=
    if currentTime > 0 then (processCount : Rat) / ((currentTime : Int) : Rat)
    else 0
  { waitingTimes := waitingTimes
    turnaroundTimes := turnaroundTimes
    responseTimes := responseTimes
    avgWaitingTime := avgWaitingTime
    avgTurnaroundTime := avgTurnaroundTime
    avgResponseTime := avgResponseTime
    cpuUtilization := cpuUtilization
    throughput := throughput
    totalExecutionTime := currentTime
    totalIdleTime := idleTime
    totalContextSwitches := contextSwitches
    contextSwitchOverhead := overhead
    processCount := processCount }

/-- The per-process effect of `Scheduler::checkArrivals(time)`: a `NEW`
process whose arrival time equals `time` becomes `READY`, anything else is
unchanged. -/
def arrivalPromote (time : Int) (p : Process) : Process :=
  if p.arrivalTime = time ∧ p.state = ProcessState.NEW then
    { p with state := ProcessState.READY }
  else p

/-- `Scheduler::checkArrivals(time)` from src/Scheduler.cpp: every process
with `arrivalTime == time` in state `NEW` is set to `READY` and a copy is
appended to the ready queue.  Returns the updated process list together with
the list of copies appended to `readyQueue`, in iteration order. -/
def checkArrivalsGo (time : Int) : List Process → List Process × List Process
  | [] => ([], [])
  | p :: rest =>
    let tail := checkArrivalsGo time rest
    if p.arrivalTime = time ∧ p.state = ProcessState.NEW then
      let p' := { p with state := ProcessState.READY }
      (p' :: tail.1, p' :: tail.2)
    else
      (p :: tail.1, tail.2)

/-- `Scheduler::checkArrivals` acting on the scheduler's process list and
ready queue. -/
def checkArrivals (time : Int) (processes readyQueue : List Process) :
    List Process × List Process :=
  let go := checkArrivalsGo time processes
  (go.1, readyQueue ++ go.2)

/-- `Scheduler::isComplete()` from src/Scheduler.cpp. -/
def isComplete (processes : List Process) : Bool :=
  processes.all (fun p => p.state == ProcessState.TERMINATED)

/-- `INT_MAX`, the sentinel used by `RoundRobinScheduler::run` and
`PriorityScheduler::findHighestPriority`. -/
def intMax : Int := 2147483647

/-! ## Round Robin (src/RoundRobinScheduler.cpp) -/

/-- State owned by a `RoundRobinScheduler` instance.  `lastPid` models the
`lastProcess` pointer of `run` (only its pid is ever read). -/
structure RRState where
  processes : List Process
  readyQueue : List Process
  processQueue : List Nat
  timeline : List ExecutionEvent
  currentTime : Int
  contextSwitches : Int
  lastPid : Option Int
  metrics : Metrics
  timeQuantum : Int
  cfg : SchedulerConfig
deriving Repr, DecidableEq

/-- The `RoundRobinScheduler(quantum, config)` constructor: a non-positive
quantum falls back to the configuration value.  Processes are those appended
through `addProcess`. -/
def mkRoundRobin (quantum : Int) (cfg : SchedulerConfig) (procs : List Process) :
    RRState :=
  { processes := procs
    readyQueue := []
    processQueue := []
    timeline := []
    currentTime := 0
    contextSwitches := 0
    lastPid := none
    metrics := {}
    timeQuantum := if quantum > 0 then quantum else cfg.timeQuantum
    cfg := cfg }

/-- `RoundRobinScheduler::reset` = `Scheduler::reset` plus clearing the
circular queue. -/
def rrReset (st : RRState) : RRState :=
  { st with
    readyQueue := []
    timeline := []
    metrics := {}
    currentTime := 0
    contextSwitches := 0
    lastPid := none
    processes := st.processes.map Process.reset
    processQueue := [] }

/-- Stable insertion by arrival time, modelling the
`std::sort(..., a.getArrivalTime() < b.getArrivalTime())` call in
`RoundRobinScheduler::run` (the embedding fixes the deterministic stable
order for equal keys). -/
def insertByArrival (p : Process) : List Process → List Process
  | [] => [p]
  | q :: rest =>
    if q.arrivalTime < p.arrivalTime then q :: insertByArrival p rest
    else p :: q :: rest

/-- Sort the process list by arrival time (stable). -/
def sortByArrival (ps : List Process) : List Process :=
  ps.foldr insertByArrival []

/-- The `nextArrival` computation of the idle branch of
`RoundRobinScheduler::run`: minimum arrival time strictly after `time` over
non-terminated processes, with `INT_MAX` as the "none" sentinel. -/
def rrNextArrival (procs : List Process) (time : Int) : Int :=
  procs.foldl
    (fun acc p =>
      if p.arrivalTime > time ∧ p.state ≠ ProcessState.TERMINATED then
        min acc p.arrivalTime
      else acc)
    intMax

/-- `checkArrivals(currentTime)` applied to a Round Robin state. -/
def rrArrive (time : Int) (st : RRState) : RRState :=
  let ca := checkArrivals time st.processes st.readyQueue
  { st with processes := ca.1, readyQueue := ca.2 }

/-- The "add newly arrived processes to the circular queue" scan of
`RoundRobinScheduler::run`: every index (other than `exclude`) whose process
is `READY`, has arrived, is not completed and is not already queued is pushed
to the back. -/
def rrEnqueueScan (exclude : Option Nat) (st : RRState) : RRState :=
  (List.range st.processes.length).foldl
    (fun s i =>
      if exclude = some i then s
      else
        match s.processes.get? i with
        | none => s
        | some q =>
          if ¬ s.processQueue.contains i ∧ q.state = ProcessState.READY ∧
              q.arrivalTime ≤ s.currentTime ∧ ¬ q.isCompleted then
            { s with processQueue := s.processQueue ++ [i] }
          else s)
    st

/-- The `for (int t = startTime + 1; t <= currentTime; ++t) checkArrivals(t)`
loop of `RoundRobinScheduler::run`. -/
def rrArriveRange (startTime : Int) (st : RRState) : RRState :=
  (List.range (st.currentTime - startTime).toNat).foldl
    (fun s (k : Nat) => rrArrive (startTime + 1 + (k : Int)) s)
    st

/-- One dispatch of `RoundRobinScheduler::run` (the part of the loop body
after a non-completed process `p` at index `idx` has been popped from the
circular queue): context switch, response-time stamping, execution for
`min(quantum, remaining)`, timeline recording, arrival catching-up,
re-enqueueing, completion handling. -/
def rrDispatch (idx : Nat) (p : Process) (st : RRState) : RRState :=
  let doCS := match st.lastPid with
    | none => false
    | some lp => lp != p.pid
  let st1 :=
    if doCS then
      { st with
        contextSwitches := st.contextSwitches + 1
        timeline := st.timeline ++
          [⟨-1, st.currentTime, st.currentTime + st.cfg.contextSwitchTime,
            true, "Context Switch"⟩]
        currentTime := st.currentTime + st.cfg.contextSwitchTime }
    else st
  let p1 :=
    if ¬ p.hasStarted then
      { p with responseTime := st1.currentTime - p.arrivalTime, hasStarted := true }
    else p
  let p2 := { p1 with state := ProcessState.RUNNING }
  let executeTime := min st1.timeQuantum p2.remainingTime
  let startTime := st1.currentTime
  let p3 := (p2.execute executeTime).2
  let st2 := { st1 with
    processes := st1.processes.set idx p3
    currentTime := st1.currentTime + executeTime }
  let st3 := { st2 with
    timeline := st2.timeline ++
      [⟨p3.pid, startTime, st2.currentTime, false,
        "Execute P" ++ toString p3.pid⟩] }
  let st4 := rrArriveRange startTime st3
  let st5 := rrEnqueueScan (some idx) st4
  if p3.isCompleted then
    let pc := { p3 with
      state := ProcessState.TERMINATED
      completionTime := st5.currentTime
      turnaroundTime := st5.currentTime - p3.arrivalTime }
    let pc2 := { pc with waitingTime := pc.turnaroundTime - pc.burstTime }
    { st5 with processes := st5.processes.set idx pc2, lastPid := some p3.pid }
  else
    { st5 with
      processes := st5.processes.set idx { p3 with state := ProcessState.READY }
      processQueue := st5.processQueue ++ [idx]
      lastPid := some p3.pid }

/-- The `while (!isComplete())` loop of `RoundRobinScheduler::run`, with
explicit fuel. -/
def rrLoop : Nat → RRState → RRState
  | 0, st => st
  | Nat.succ fuel, st =>
    if isComplete st.processes then st
    else
      let st1 := rrArrive st.currentTime st
      let st2 := rrEnqueueScan none st1
      match st2.processQueue with
      | [] =>
        let na := rrNextArrival st2.processes st2.currentTime
        if na ≠ intMax then
          rrLoop fuel
            { st2 with
              timeline := st2.timeline ++
                [⟨-1, st2.currentTime, na, false, "CPU Idle"⟩]
              currentTime := na }
        else st2
      | idx :: rest =>
        let st3 := { st2 with processQueue := rest }
        match st3.processes.get? idx with
        | none => rrLoop fuel st3
        | some p =>
          if p.isCompleted then rrLoop fuel st3
          else rrLoop fuel (rrDispatch idx p st3)

/-- `RoundRobinScheduler::run` from src/RoundRobinScheduler.cpp. -/
def rrRun (fuel : Nat) (st : RRState) : RRState :=
  if st.processes = [] then st
  else
    let s0 := rrReset st
    let s1 := { s0 with processes := sortByArrival s0.processes }
    let s2 := rrArrive 0 s1
    let s3 := { s2 with processQueue := List.range s2.readyQueue.length }
    let s4 := rrLoop fuel s3
    { s4 with
      metrics := calculateMetrics s4.processes s4.timeline s4.contextSwitches
        s4.cfg.contextSwitchTime s4.currentTime }

/-- The common dispatch prologue of the Priority, Multilevel Queue and MLFQ
run loops: `setState(RUNNING)` followed by the first-execution response-time
stamping. -/
def dispatchPrep (time : Int) (p : Process) : Process :=
  let p1 := { p with state := ProcessState.RUNNING }
  if ¬ p1.hasStarted then
    { p1 with responseTime := time - p1.arrivalTime, hasStarted := true }
  else p1

/-- The waiting-time crediting loop of the Multilevel Queue and MLFQ
schedulers: every `READY`, already-arrived process other than the running
pid gains `actual` waiting time. -/
def waitCredit (time actual pid : Int) (q : Process) : Process :=
  if q.state = ProcessState.READY ∧ q.arrivalTime ≤ time ∧ q.pid ≠ pid then
    { q with waitingTime := q.waitingTime + actual }
  else q

/-- The waiting-time crediting loop of the Priority scheduler (no pid
exclusion: the running process is excluded by its `RUNNING` state). -/
def prioWaitCredit (time actual : Int) (q : Process) : Process :=
  if q.state = ProcessState.READY ∧ q.arrivalTime ≤ time then
    { q with waitingTime := q.waitingTime + actual }
  else q

/-! ## Priority scheduler (src/PriorityScheduler.cpp) -/

/-- Lookup in the `waitingSince` map (`std::map<int,int>` keyed by pid). -/
def wsFind (m : List (Int × Int)) (k : Int) : Option Int :=
  (m.find? (fun e => e.1 == k)).map (·.2)

/-- Insert-or-assign in the `waitingSince` map. -/
def wsSet : List (Int × Int) → Int → Int → List (Int × Int)
  | [], k, v => [(k, v)]
  | e :: rest, k, v =>
    if e.1 == k then (k, v) :: rest else e :: wsSet rest k v

/-- `waitingSince.erase(pid)`. -/
def wsErase : List (Int × Int) → Int → List (Int × Int)
  | [], _ => []
  | e :: rest, k => if e.1 == k then rest else e :: wsErase rest k

/-- State owned by a `PriorityScheduler` instance.  `currentIdx` is the local
`currentProcessIdx` of `run`; `currentProcPtr` is the base-class
`currentProcess` pointer, which this scheduler never assigns (it stays null
for the whole run, which is why `shouldPreempt` can never fire). -/
structure PrioState where
  processes : List Process
  timeline : List ExecutionEvent
  currentTime : Int
  contextSwitches : Int
  waitingSince : List (Int × Int)
  currentIdx : Option Nat
  currentProcPtr : Option Process
  metrics : Metrics
  preemptive : Bool
  cfg : SchedulerConfig
deriving Repr, DecidableEq

/-- The `PriorityScheduler(preemptive, config)` constructor (the
`agingEnabled`/`agingThreshold` members copy the config fields and are read
back from `cfg` here). -/
def mkPriority (preemptive : Bool) (cfg : SchedulerConfig)
    (procs : List Process) : PrioState :=
  { processes := procs
    timeline := []
    currentTime := 0
    contextSwitches := 0
    waitingSince := []
    currentIdx := none
    currentProcPtr := none
    metrics := {}
    preemptive := preemptive
    cfg := cfg }

/-- `PriorityScheduler::shouldPreempt`. -/
def shouldPreempt (st : PrioState) (arriving : Process) : Bool :=
  if ¬ st.preemptive then false
  else
    match st.currentProcPtr with
    | none => false
    | some cp => arriving.priority < cp.priority

/-- `PriorityScheduler::applyAging`: every `READY` process gets a
waiting-since stamp on first sight; once its unserved wait reaches the
threshold and its priority value is positive, the priority is decremented
and the stamp reset. -/
def applyAging (st : PrioState) : PrioState :=
  if ¬ st.cfg.agingEnabled then st
  else
    (List.range st.processes.length).foldl
      (fun s i =>
        match s.processes.get? i with
        | none => s
        | some p =>
          if p.state = ProcessState.READY then
            let ws1 :=
              if (wsFind s.waitingSince p.pid).isNone then
                wsSet s.waitingSince p.pid s.currentTime
              else s.waitingSince
            let wt := s.currentTime - (wsFind ws1 p.pid).getD 0
            if wt ≥ s.cfg.agingThreshold ∧ p.priority > 0 then
              { s with
                processes := s.processes.set i { p with priority := p.priority - 1 }
                waitingSince := wsSet ws1 p.pid s.currentTime }
            else { s with waitingSince := ws1 }
          else s)
      st

/-- The tie-break of `PriorityScheduler::findHighestPriority`:
`highestPriorityIdx == -1 || p.arrivalTime < processes[idx].arrivalTime`. -/
def prioTieBreak (procs : List Process) (best : Option Nat) (p : Process) :
    Bool :=
  match best with
  | none => true
  | some j => p.arrivalTime < ((procs.get? j).map (·.arrivalTime)).getD 0

/-- `PriorityScheduler::findHighestPriority`: lowest priority value among
`READY`, already-arrived processes, ties broken by earlier arrival time
(first index wins for equal priority and equal arrival).  `intMax` is the
`std::numeric_limits<int>::max()` sentinel of the source. -/
def findHighestPriority (procs : List Process) (time : Int) : Option Nat :=
  (procs.enum.foldl
    (fun acc pair =>
      let i := pair.1
      let p := pair.2
      if p.state = ProcessState.READY ∧ p.arrivalTime ≤ time then
        if p.priority < acc.1 then (p.priority, some i)
        else
          if p.priority = acc.1 ∧ prioTieBreak procs acc.2 p then
            (acc.1, some i)
          else acc
      else acc)
    (intMax, (none : Option Nat))).2

/-- The "handle new arrivals" loop at the top of `PriorityScheduler::run`:
`NEW` processes with `arrivalTime <= currentTime` become `READY`; the nested
preemption check is modelled verbatim (it can never fire because
`currentProcPtr` is never assigned). -/
def prioArrivals (st : PrioState) : PrioState :=
  (List.range st.processes.length).foldl
    (fun s i =>
      match s.processes.get? i with
      | none => s
      | some p =>
        if p.state = ProcessState.NEW ∧ p.arrivalTime ≤ s.currentTime then
          let arrived := { p with state := ProcessState.READY }
          let s1 := { s with processes := s.processes.set i arrived }
          if s1.preemptive ∧ shouldPreempt s1 arrived then
            match s1.currentIdx with
            | some ci =>
              match s1.processes.get? ci with
              | some cp =>
                { s1 with
                  processes := s1.processes.set ci
                    { cp with state := ProcessState.READY }
                  contextSwitches := s1.contextSwitches + 1
                  currentIdx := none }
              | none =>
                { s1 with
                  contextSwitches := s1.contextSwitches + 1
                  currentIdx := none }
            | none => s1
          else s1
        else s)
    st

/-- The selection block of `PriorityScheduler::run` once
`findHighestPriority` has produced index `i`: mark running, stamp response
time on first execution, advance the clock by the context-switch cost when
the previous timeline entry belongs to a different pid (without counting a
context switch), and clear the waiting-since stamp. -/
def prioSelect (i : Nat) (st : PrioState) : PrioState :=
  match st.processes.get? i with
  | none => { st with currentIdx := some i }
  | some p =>
    let p2 := dispatchPrep st.currentTime p
    let st1 := { st with processes := st.processes.set i p2 }
    let st2 :=
      match st1.timeline.getLast? with
      | some e =>
        if e.processId ≠ p2.pid then
          { st1 with currentTime := st1.currentTime + st1.cfg.contextSwitchTime }
        else st1
      | none => st1
    { st2 with
      waitingSince := wsErase st2.waitingSince p2.pid
      currentIdx := some i }

/-- The execution part of the `PriorityScheduler::run` loop body: run for one
tick (preemptive) or to completion (non-preemptive), record the event, credit
waiting time to ready processes, then handle completion or preemption.
Returns the new state together with the updated `completedProcesses`
counter. -/
def prioDispatch (i : Nat) (st : PrioState) (completed : Int) :
    PrioState × Int :=
  match st.processes.get? i with
  | none => (st, completed)
  | some p =>
    let startTime := st.currentTime
    let executionTime := if st.preemptive then 1 else p.remainingTime
    let res := p.execute executionTime
    let actual := res.1
    let p' := res.2
    let st1 : PrioState := { st with
      processes := st.processes.set i p'
      currentTime := st.currentTime + actual }
    let st2 : PrioState := { st1 with
      timeline := st1.timeline ++ [⟨p'.pid, startTime, st1.currentTime, false, ""⟩] }
    let st3 : PrioState := { st2 with
      processes := st2.processes.map (prioWaitCredit st2.currentTime actual) }
    if p'.remainingTime = 0 then
      let pc := { p' with
        state := ProcessState.TERMINATED
        completionTime := st3.currentTime
        turnaroundTime := st3.currentTime - p'.arrivalTime }
      ({ st3 with processes := st3.processes.set i pc, currentIdx := none },
       completed + 1)
    else
      if st.preemptive then
        match findHighestPriority st3.processes st3.currentTime with
        | some hp =>
          if hp ≠ i ∧
              ((st3.processes.get? hp).map (·.priority)).getD 0 < p'.priority then
            ({ st3 with
               processes := st3.processes.set i
                 { p' with state := ProcessState.READY }
               contextSwitches := st3.contextSwitches + 1
               currentIdx := none },
             completed)
          else (st3, completed)
        | none => (st3, completed)
      else (st3, completed)

/-- The `while (completedProcesses < totalProcesses)` loop of
`PriorityScheduler::run`, with explicit fuel. -/
def prioLoop : Nat → Int → PrioState → PrioState
  | 0, _, st => st
  | Nat.succ fuel, completed, st =>
    if completed < (st.processes.length : Int) then
      let st1 := applyAging (prioArrivals st)
      match st1.currentIdx with
      | none =>
        match findHighestPriority st1.processes st1.currentTime with
        | some i =>
          let st2 := prioSelect i st1
          let r := prioDispatch i st2 completed
          prioLoop fuel r.2 r.1
        | none =>
          prioLoop fuel completed { st1 with currentTime := st1.currentTime + 1 }
      | some i =>
        let r := prioDispatch i st1 completed
        prioLoop fuel r.2 r.1
    else st

/-- `PriorityScheduler::run` from src/PriorityScheduler.cpp.  Note that it
resets clock, timeline, context-switch counter and the per-process timing
fields, but neither `waitingSince` nor any priority value mutated by
aging. -/
def prioRun (fuel : Nat) (st : PrioState) : PrioState :=
  let st0 := { st with
    currentTime := 0
    currentIdx := none
    timeline := []
    contextSwitches := 0 }
  let st1 := { st0 with
    processes := st0.processes.map (fun p =>
      let q := p.reset
      if q.arrivalTime = 0 then { q with state := ProcessState.READY } else q) }
  let st2 := prioLoop fuel 0 st1
  { st2 with
    metrics := calculateMetrics st2.processes st2.timeline st2.contextSwitches
      st2.cfg.contextSwitchTime st2.currentTime }

/-! ## Multilevel Queue (src/MultilevelQueueScheduler.cpp) -/

/-- `MultilevelQueueScheduler::assignToQueue`: priority 0-2 to the system
queue 0, priority 3-5 to the interactive queue 1 when more than one queue
exists, everything else to `min(numQueues - 1, 2)`. -/
def assignToQueue (priority : Int) (numQueues : Nat) : Nat :=
  if priority ≤ 2 then 0
  else if priority ≤ 5 ∧ numQueues > 1 then 1
  else min (numQueues - 1) 2

/-- The per-queue quantum set up by the `MultilevelQueueScheduler`
constructor: half the base quantum for queue 0, the base quantum for
queue 1, twice the base quantum for queues 2 and above.  `Int.tdiv` is the
toward-zero division of C++. -/
def mlqQueueQuantum (cfg : SchedulerConfig) (i : Nat) : Int :=
  if i = 0 then Int.tdiv cfg.timeQuantum 2
  else if i = 1 then cfg.timeQuantum
  else cfg.timeQuantum * 2

/-- `queues[q].push_back(i)` with the bounds behaviour of a Lean list
(out-of-range pushes are dropped; the source never indexes out of range on
the runs considered). -/
def queuePush (qs : List (List Nat)) (q : Nat) (i : Nat) : List (List Nat) :=
  match qs.get? q with
  | some l => qs.set q (l ++ [i])
  | none => qs

/-- `MultilevelQueueScheduler::getActiveQueue`: lowest-numbered non-empty
queue (`none` models the -1 return). -/
def getActiveQueue (qs : List (List Nat)) : Option Nat :=
  ((qs.enum.find? (fun pair => !pair.2.isEmpty)).map (·.1))

/-- The state threaded through the `MultilevelQueueScheduler::run` loop.
`csDelta` counts the `contextSwitches++` increments of the run; the member
counter itself is *not* cleared by `run`, so the scheduler-level state adds
the delta to whatever value the member already had. -/
structure MLQLoopState where
  processes : List Process
  queues : List (List Nat)
  currentTime : Int
  timeline : List ExecutionEvent
  completed : Int
  csDelta : Nat
deriving Repr, DecidableEq

/-- `MultilevelQueueScheduler::executeQueue(queueIdx)`: pop the front index,
drop it if it is not dispatchable, otherwise run it for the queue's quantum
with context-switch overhead, waiting-time crediting, and completion or
re-enqueue to the back of the same queue. -/
def mlqExecuteQueue (cfg : SchedulerConfig) (queueIdx : Nat)
    (st : MLQLoopState) : MLQLoopState :=
  match st.queues.get? queueIdx with
  | none => st
  | some ql =>
    match ql with
    | [] => st
    | processIdx :: restQ =>
      let st1 : MLQLoopState := { st with queues := st.queues.set queueIdx restQ }
      match st1.processes.get? processIdx with
      | none => st1
      | some p =>
        if p.state ≠ ProcessState.READY ∨ p.arrivalTime > st1.currentTime then
          st1
        else
          let p2 := dispatchPrep st1.currentTime p
          let st2 : MLQLoopState :=
            { st1 with processes := st1.processes.set processIdx p2 }
          let st3 : MLQLoopState :=
            match st2.timeline.getLast? with
            | some e =>
              if e.processId ≠ p2.pid then
                { st2 with
                  currentTime := st2.currentTime + cfg.contextSwitchTime
                  csDelta := st2.csDelta + 1 }
              else st2
            | none => st2
          let quantum := mlqQueueQuantum cfg queueIdx
          let executionStart := st3.currentTime
          let res := p2.execute quantum
          let actual := res.1
          let p3 := res.2
          let st4 : MLQLoopState := { st3 with
            processes := st3.processes.set processIdx p3
            currentTime := st3.currentTime + actual }
          let st5 : MLQLoopState := { st4 with
            timeline := st4.timeline ++
              [⟨p3.pid, executionStart, st4.currentTime, false, ""⟩] }
          let st6 : MLQLoopState := { st5 with
            processes := st5.processes.map
              (waitCredit st5.currentTime actual p3.pid) }
          if p3.remainingTime = 0 then
            let pc := { p3 with
              state := ProcessState.TERMINATED
              completionTime := st6.currentTime
              turnaroundTime := st6.currentTime - p3.arrivalTime }
            { st6 with processes := st6.processes.set processIdx pc }
          else
            { st6 with
              processes := st6.processes.set processIdx
                { p3 with state := ProcessState.READY }
              queues := queuePush st6.queues queueIdx processIdx }

/-- The "handle new arrivals" loop of `MultilevelQueueScheduler::run`:
`NEW` processes whose arrival time equals the current tick become `READY`
and are enqueued into `queues[p.queueLevel]`. -/
def mlqArrivals (st : MLQLoopState) : MLQLoopState :=
  (List.range st.processes.length).foldl
    (fun s i =>
      match s.processes.get? i with
      | none => s
      | some p =>
        if p.state = ProcessState.NEW ∧ p.arrivalTime = s.currentTime then
          let p' := { p with state := ProcessState.READY }
          { s with
            processes := s.processes.set i p'
            queues := queuePush s.queues p'.queueLevel.toNat i }
        else s)
    st

/-- The completed-process scan after `executeQueue` in
`MultilevelQueueScheduler::run`: one increment per terminated process whose
completion time equals the current tick. -/
def mlqCountCompleted (st : MLQLoopState) : Int :=
  st.processes.foldl
    (fun acc p =>
      if p.state = ProcessState.TERMINATED ∧
          p.completionTime = st.currentTime then acc + 1
      else acc)
    0

/-- The `while (completedProcesses < totalProcesses)` loop of
`MultilevelQueueScheduler::run`, with explicit fuel. -/
def mlqLoop (cfg : SchedulerConfig) : Nat → MLQLoopState → MLQLoopState
  | 0, st => st
  | Nat.succ fuel, st =>
    if st.completed < (st.processes.length : Int) then
      let st1 := mlqArrivals st
      match getActiveQueue st1.queues with
      | some aq =>
        let st2 := mlqExecuteQueue cfg aq st1
        mlqLoop cfg fuel
          { st2 with completed := st2.completed + mlqCountCompleted st2 }
      | none =>
        mlqLoop cfg fuel { st1 with currentTime := st1.currentTime + 1 }
    else st

/-- State owned by a `MultilevelQueueScheduler` instance. -/
structure MLQState where
  processes : List Process
  queues : List (List Nat)
  timeline : List ExecutionEvent
  currentTime : Int
  contextSwitches : Int
  currentQueue : Nat
  metrics : Metrics
  numQueues : Nat
  cfg : SchedulerConfig
deriving Repr, DecidableEq

/-- `MultilevelQueueScheduler::addProcess`: append through the base class,
then stamp the queue band of the appended element (the last one). -/
def mlqAddProcess (nQ : Nat) (st : MLQState) (p : Process) : MLQState :=
  let appended := st.processes ++ [p]
  { st with
    processes := appended.set (appended.length - 1)
      { p with queueLevel := ((assignToQueue p.priority nQ : Nat) : Int) } }

/-- The `MultilevelQueueScheduler(numQueues, config)` constructor followed by
`addProcess` for each given process. -/
def mkMLQ (numQueues : Nat) (cfg : SchedulerConfig) (procs : List Process) :
    MLQState :=
  procs.foldl (fun st p => mlqAddProcess numQueues st p)
    { processes := []
      queues := List.replicate numQueues []
      timeline := []
      currentTime := 0
      contextSwitches := 0
      currentQueue := 0
      metrics := {}
      numQueues := numQueues
      cfg := cfg }

/-- The per-process initialization of `MultilevelQueueScheduler::run`:
`setQueueLevel(assignToQueue(p))`, then `reset()` (which clears the queue
level again), then the initial state depending on a zero arrival time. -/
def mlqInitProcess (nQ : Nat) (p : Process) : Process :=
  let p1 := { p with queueLevel := ((assignToQueue p.priority nQ : Nat) : Int) }
  let p2 := p1.reset
  if p2.arrivalTime = 0 then { p2 with state := ProcessState.READY }
  else { p2 with state := ProcessState.NEW }

/-- The initial queue contents built by `MultilevelQueueScheduler::run`:
indices of zero-arrival processes pushed to their assigned band, in index
order. -/
def mlqInitQueuesGo (nQ : Nat) :
    Nat → List Process → List (List Nat) → List (List Nat)
  | _, [], qs => qs
  | i, p :: rest, qs =>
    let qs' :=
      if p.arrivalTime = 0 then queuePush qs (assignToQueue p.priority nQ) i
      else qs
    mlqInitQueuesGo nQ (i + 1) rest qs'

/-- Initial queues of `MultilevelQueueScheduler::run`. -/
def mlqInitQueues (nQ : Nat) (ps : List Process) : List (List Nat) :=
  mlqInitQueuesGo nQ 0 ps (List.replicate nQ [])

/-- The initialization phase of `MultilevelQueueScheduler::run`: clock,
timeline and queues cleared, every process re-stamped and reset, zero-arrival
processes enqueued.  The context-switch member counter is *not* cleared by
`run`, so the loop's increments (`csDelta`) are added on top of its previous
value when the run finishes. -/
def mlqRunInitState (st : MLQState) : MLQLoopState :=
  { processes := st.processes.map (mlqInitProcess st.numQueues)
    queues := mlqInitQueues st.numQueues st.processes
    currentTime := 0
    timeline := []
    completed := 0
    csDelta := 0 }

/-- `MultilevelQueueScheduler::run`, continued: simulate from the initial
loop state and write back the results. -/
def mlqRun (fuel : Nat) (st : MLQState) : MLQState :=
  let L := mlqLoop st.cfg fuel (mlqRunInitState st)
  { st with
    processes := L.processes
    queues := L.queues
    timeline := L.timeline
    currentTime := L.currentTime
    contextSwitches := st.contextSwitches + (L.csDelta : Int)
    metrics := calculateMetrics L.processes L.timeline
      (st.contextSwitches + (L.csDelta : Int)) st.cfg.contextSwitchTime
      L.currentTime }

/-! ## Multilevel Feedback Queue (src/MultilevelFeedbackQueueScheduler.cpp) -/

/-- The per-level quanta set up by the `MultilevelFeedbackQueueScheduler`
constructor: exponential doubling of the base quantum
(`quantums[i] = timeQuantum * 2^i`), overridden prefix-wise by the explicit
`config.quantums` list. -/
def mlfqQuantums (numQueues : Nat) (cfg : SchedulerConfig) : List Int :=
  ((List.range numQueues).map (fun i => cfg.timeQuantum * 2 ^ i)).enum.map
    (fun pair =>
      match cfg.quantums.get? pair.1 with
      | some v => v
      | none => pair.2)

/-- `MultilevelFeedbackQueueScheduler::getQuantumForQueue`. -/
def getQuantumForQueue (quantums : List Int) (cfg : SchedulerConfig)
    (queueLevel : Int) : Int :=
  if 0 ≤ queueLevel ∧ queueLevel < (quantums.length : Int) then
    (quantums.get? queueLevel.toNat).getD cfg.timeQuantum
  else cfg.timeQuantum

/-- `MultilevelFeedbackQueueScheduler::demoteProcess`: move one level down,
clamped at the last level. -/
def demoteProcess (numQueues : Nat) (p : Process) : Process :=
  if p.queueLevel < (numQueues : Int) - 1 then
    { p with queueLevel := p.queueLevel + 1 }
  else p

/-- The state acted on by one dispatch of the
`MultilevelFeedbackQueueScheduler::run` loop. -/
structure MLFQDispatchState where
  processes : List Process
  queues : List (List Nat)
  currentTime : Int
  timeline : List ExecutionEvent
  contextSwitches : Int
  completed : Int
deriving Repr, DecidableEq

/-- One dispatch of `MultilevelFeedbackQueueScheduler::run` (lines 161-221):
pop the front of the active queue; a `READY` process runs for the level
quantum, is credited on the timeline, terminates if done, and is otherwise
demoted exactly when it consumed its whole quantum, then re-enqueued at its
(possibly new) level. -/
def mlfqDispatch (numQueues : Nat) (quantums : List Int)
    (cfg : SchedulerConfig) (activeQueue : Nat) (st : MLFQDispatchState) :
    MLFQDispatchState :=
  match st.queues.get? activeQueue with
  | none => st
  | some ql =>
    match ql with
    | [] => st
    | processIdx :: restQ =>
      let st1 : MLFQDispatchState :=
        { st with queues := st.queues.set activeQueue restQ }
      match st1.processes.get? processIdx with
      | none => st1
      | some p =>
        if p.state = ProcessState.READY then
          let p2 := dispatchPrep st1.currentTime p
          let st2 : MLFQDispatchState :=
            { st1 with processes := st1.processes.set processIdx p2 }
          let st3 : MLFQDispatchState :=
            match st2.timeline.getLast? with
            | some e =>
              if e.processId ≠ p2.pid then
                { st2 with
                  currentTime := st2.currentTime + cfg.contextSwitchTime
                  contextSwitches := st2.contextSwitches + 1 }
              else st2
            | none => st2
          let quantum := getQuantumForQueue quantums cfg (activeQueue : Int)
          let executionStart := st3.currentTime
          let res := p2.execute quantum
          let actual := res.1
          let p3 := res.2
          let st4 : MLFQDispatchState := { st3 with
            processes := st3.processes.set processIdx p3
            currentTime := st3.currentTime + actual }
          let st5 : MLFQDispatchState := { st4 with
            timeline := st4.timeline ++
              [⟨p3.pid, executionStart, st4.currentTime, false, ""⟩] }
          let st6 : MLFQDispatchState := { st5 with
            processes := st5.processes.map
              (waitCredit st5.currentTime actual p3.pid) }
          if p3.remainingTime = 0 then
            let pc := { p3 with
              state := ProcessState.TERMINATED
              completionTime := st6.currentTime
              turnaroundTime := st6.currentTime - p3.arrivalTime }
            { st6 with
              processes := st6.processes.set processIdx pc
              completed := st6.completed + 1 }
          else
            let p4 := if actual ≥ quantum then demoteProcess numQueues p3 else p3
            let p5 := { p4 with state := ProcessState.READY }
            { st6 with
              processes := st6.processes.set processIdx p5
              queues := queuePush st6.queues p5.queueLevel.toNat processIdx }
        else st1


/-- `MultilevelFeedbackQueueScheduler::priorityBoost`: every non-terminated
process moves to level 0 and the queues are rebuilt with every `READY`
process index pushed to queue 0 in index order. -/
def mlfqBoost (numQueues : Nat) (st : MLFQDispatchState) : MLFQDispatchState :=
  let ps := st.processes.map (fun p =>
    if p.state ≠ ProcessState.TERMINATED then { p with queueLevel := 0 } else p)
  { st with
    processes := ps
    queues := (List.replicate numQueues ([] : List Nat)).set 0
      ((List.range ps.length).filter (fun i =>
        ((ps.get? i).map (fun p => p.state == ProcessState.READY)).getD false)) }

/-- The "handle new arrivals" loop of `MultilevelFeedbackQueueScheduler::run`:
arriving processes always enter at level 0 and are pushed to queue 0. -/
def mlfqArrivals (st : MLFQDispatchState) : MLFQDispatchState :=
  (List.range st.processes.length).foldl
    (fun s i =>
      match s.processes.get? i with
      | none => s
      | some p =>
        if p.state = ProcessState.NEW ∧ p.arrivalTime = s.currentTime then
          let p' := { p with
            state := ProcessState.READY
            queueLevel := 0 }
          { s with
            processes := s.processes.set i p'
            queues := queuePush s.queues 0 i }
        else s)
    st

/-- The `while (completedProcesses < totalProcesses)` loop of
`MultilevelFeedbackQueueScheduler::run`, with explicit fuel; the `Int`
argument is the `lastBoostTime` member (the boost interval is
`config.agingThreshold * 5`). -/
def mlfqLoop (numQueues : Nat) (quantums : List Int) (cfg : SchedulerConfig) :
    Nat → Int → MLFQDispatchState → MLFQDispatchState
  | 0, _, st => st
  | Nat.succ fuel, lastBoost, st =>
    if st.completed < (st.processes.length : Int) then
      let bo :=
        if cfg.agingEnabled ∧
            st.currentTime - lastBoost ≥ cfg.agingThreshold * 5 then
          (mlfqBoost numQueues st, st.currentTime)
        else (st, lastBoost)
      let st1 := mlfqArrivals bo.1
      match getActiveQueue st1.queues with
      | some aq =>
        mlfqLoop numQueues quantums cfg fuel bo.2
          (mlfqDispatch numQueues quantums cfg aq st1)
      | none =>
        mlfqLoop numQueues quantums cfg fuel bo.2
          { st1 with currentTime := st1.currentTime + 1 }
    else st

/-- State owned by a `MultilevelFeedbackQueueScheduler` instance (the
write-only `processQueueMap` and `timeInQueue` bookkeeping is omitted; no
scheduling decision reads it). -/
structure MLFQState where
  processes : List Process
  queues : List (List Nat)
  timeline : List ExecutionEvent
  currentTime : Int
  contextSwitches : Int
  metrics : Metrics
  numQueues : Nat
  cfg : SchedulerConfig
deriving Repr, DecidableEq

/-- The `MultilevelFeedbackQueueScheduler(numQueues, config)` constructor
followed by `addProcess` for each given process; `addProcess` stamps level 0
on the appended element. -/
def mkMLFQ (numQueues : Nat) (cfg : SchedulerConfig) (procs : List Process) :
    MLFQState :=
  { processes := procs.map (fun p => { p with queueLevel := 0 })
    queues := List.replicate numQueues []
    timeline := []
    currentTime := 0
    contextSwitches := 0
    metrics := {}
    numQueues := numQueues
    cfg := cfg }

/-- The per-process initialization of `MultilevelFeedbackQueueScheduler::run`:
`reset()` (which already clears the queue level), `setQueueLevel(0)`, then
`READY` for a zero arrival time and `NEW` (left from `reset`) otherwise. -/
def mlfqInitProcess (p : Process) : Process :=
  let q := p.reset
  if q.arrivalTime = 0 then { q with state := ProcessState.READY } else q

/-- The initial queue contents of `MultilevelFeedbackQueueScheduler::run`:
zero-arrival indices pushed to queue 0 in index order. -/
def mlfqInitQueuesGo : Nat → List Process → List (List Nat) → List (List Nat)
  | _, [], qs => qs
  | i, p :: rest, qs =>
    let qs' := if p.arrivalTime = 0 then queuePush qs 0 i else qs
    mlfqInitQueuesGo (i + 1) rest qs'

/-- The initialization phase of `MultilevelFeedbackQueueScheduler::run`:
clock, timeline, boost stamp and queues cleared, every process reset to
level 0.  Like the Multilevel Queue `run`, it never clears the
`contextSwitches` member. -/
def mlfqRunInit (st : MLFQState) : MLFQDispatchState :=
  { processes := st.processes.map mlfqInitProcess
    queues := mlfqInitQueuesGo 0 st.processes (List.replicate st.numQueues [])
    currentTime := 0
    timeline := []
    contextSwitches := st.contextSwitches
    completed := 0 }

/-- `MultilevelFeedbackQueueScheduler::run` from
src/MultilevelFeedbackQueueScheduler.cpp. -/
def mlfqRun (fuel : Nat) (st : MLFQState) : MLFQState :=
  let L := mlfqLoop st.numQueues (mlfqQuantums st.numQueues st.cfg) st.cfg fuel
    0 (mlfqRunInit st)
  { st with
    processes := L.processes
    queues := L.queues
    timeline := L.timeline
    currentTime := L.currentTime
    contextSwitches := L.contextSwitches
    metrics := calculateMetrics L.processes L.timeline L.contextSwitches
      st.cfg.contextSwitchTime L.currentTime }

/-! ## Derived definitions used by the statements -/

/-- The spec's invariant `remainingTime == 0 ⇔ state == Terminated`. -/
def procInvariant (p : Process) : Prop :=
  p.remainingTime = 0 ↔ p.state = ProcessState.TERMINATED

instance (p : Process) : Decidable (procInvariant p) := by
  unfold procInvariant; infer_instance

/-- The spec's per-process identity at termination:
`waitingTime == turnaroundTime - burstTime`. -/
def waitingIdentity (p : Process) : Prop :=
  p.state = ProcessState.TERMINATED →
    p.waitingTime = p.turnaroundTime - p.burstTime

instance (p : Process) : Decidable (waitingIdentity p) := by
  unfold waitingIdentity; infer_instance

/-- The queue band as the spec words it, for comparison with
`assignToQueue`: priority at most 2 to queue 0, priority 3-5 to queue 1 when
more than one queue exists, every remaining process to the last available
queue (index `numQueues - 1`). -/
def specQueueBand (priority : Int) (numQueues : Nat) : Nat :=
  if priority ≤ 2 then 0
  else if priority ≤ 5 ∧ numQueues > 1 then 1
  else numQueues - 1

/-- The fields of a process that no scheduler run ever mutates:
pid, priority (absent aging), burst time and arrival time. -/
def procCore (p : Process) : Int × Int × Int × Int :=
  (p.pid, p.priority, p.burstTime, p.arrivalTime)

/-- Scenario A of the spec: a Round Robin scheduler with quantum 4 and
context-switch cost 1 (the config defaults), processes with bursts 5 and 3,
both arriving at time 0, in that input order. -/
def scenarioA : RRState :=
  mkRoundRobin 4 {} [mkProcess 1 0 5 0, mkProcess 2 0 3 0]

/-- A single-process Round Robin instance used as a witness input. -/
def rrSingle : RRState := mkRoundRobin 4 {} [mkProcess 1 0 3 0]

/-- A non-preemptive priority scheduler (aging off, context-switch cost 1)
with two zero-arrival processes of bursts 5 and 3: the input on which the
incremental waiting-time accounting misses the context-switch delay. -/
def prioWaitCE : PrioState :=
  mkPriority false { agingEnabled := false }
    [mkProcess 1 0 5 0, mkProcess 2 1 3 0]

/-- A Multilevel Queue instance (3 queues, default config) whose two
processes land in different bands, so one run charges one context switch. -/
def mlqTwiceCE : MLQState :=
  mkMLQ 3 {} [mkProcess 1 0 2 0, mkProcess 2 6 2 0]

/-- A one-process MLFQ dispatch state used as a witness input: a ready
process with burst 5 at level 0, base quantum 2. -/
def mlfqWitnessState : MLFQDispatchState :=
  { processes := [{ mkProcess 1 0 5 0 with state := ProcessState.READY }]
    queues := [[0], [], []]
    currentTime := 0
    timeline := []
    contextSwitches := 0
    completed := 0 }

/-! ## Helper lemmas -/

theorem foldl_invariant {α β : Type _} (f : β → α → β) (P : β → Prop)
    (h : ∀ s a, P s → P (f s a)) :
    ∀ (l : List α) (s : β), P s → P (l.foldl f s)
  | [], _, hs => hs
  | a :: l, s, hs => foldl_invariant f P h l (f s a) (h s a hs)

theorem execute_fst (p : Process) (t : Int) :
    (p.execute t).1 = if p.remainingTime = 0 then 0 else min t p.remainingTime := by
  by_cases h : p.remainingTime = 0 <;> simp [Process.execute, h]

theorem execute_remaining (p : Process) (t : Int) :
    (p.execute t).2.remainingTime = p.remainingTime - (p.execute t).1 := by
  by_cases h : p.remainingTime = 0
  · simp [Process.execute, h]
  · by_cases h2 : p.remainingTime - min t p.remainingTime = 0 <;>
      simp [Process.execute, h, h2]

theorem execute_preserved (p : Process) (t : Int) :
    (p.execute t).2.pid = p.pid ∧
    (p.execute t).2.priority = p.priority ∧
    (p.execute t).2.burstTime = p.burstTime ∧
    (p.execute t).2.arrivalTime = p.arrivalTime ∧
    (p.execute t).2.waitingTime = p.waitingTime ∧
    (p.execute t).2.turnaroundTime = p.turnaroundTime ∧
    (p.execute t).2.completionTime = p.completionTime ∧
    (p.execute t).2.responseTime = p.responseTime ∧
    (p.execute t).2.queueLevel = p.queueLevel := by
  by_cases h : p.remainingTime = 0
  · simp [Process.execute, h]
  · by_cases h2 : p.remainingTime - min t p.remainingTime = 0 <;>
      simp [Process.execute, h, h2]

theorem execute_state_closed (p : Process) (t : Int) :
    (p.execute t).2.state =
      if p.remainingTime = 0 then p.state
      else if p.remainingTime - min t p.remainingTime = 0 then
        ProcessState.TERMINATED
      else ProcessState.RUNNING := by
  by_cases h : p.remainingTime = 0
  · simp [Process.execute, h]
  · by_cases h2 : p.remainingTime - min t p.remainingTime = 0 <;>
      simp [Process.execute, h, h2]

/-! ## C1: the execute contract -/

/-- C1: for every process and every integer time slice, `execute` on a
process with zero remaining time returns 0 and changes nothing; otherwise it
returns `min(t, remainingBefore)`, decrements the remaining time by exactly
that value, marks the process started, and ends `TERMINATED` exactly when
the remaining time reaches zero, else `RUNNING`. -/
theorem execute_contract (p : Process) (t : Int) :
    (p.remainingTime = 0 → p.execute t = (0, p)) ∧
    (p.remainingTime ≠ 0 →
      (p.execute t).1 = min t p.remainingTime ∧
      (p.execute t).2.remainingTime = p.remainingTime - (p.execute t).1 ∧
      (p.execute t).2.hasStarted = true ∧
      ((p.execute t).2.state = ProcessState.TERMINATED ↔
        (p.execute t).2.remainingTime = 0) ∧
      ((p.execute t).2.remainingTime ≠ 0 →
        (p.execute t).2.state = ProcessState.RUNNING)) := by
  constructor
  · intro h
    simp [Process.execute, h]
  · intro h
    refine ⟨?_, execute_remaining p t, ?_, ?_, ?_⟩
    · simp [execute_fst, h]
    · by_cases h2 : p.remainingTime - min t p.remainingTime = 0 <;>
        simp [Process.execute, h, h2]
    · rw [execute_state_closed, execute_remaining, execute_fst]
      simp only [h, if_false]
      by_cases h2 : p.remainingTime - min t p.remainingTime = 0 <;> simp [h2]
    · rw [execute_state_closed, execute_remaining, execute_fst]
      simp only [h, if_false]
      by_cases h2 : p.remainingTime - min t p.remainingTime = 0 <;> simp [h2]

/-- Witness for C1 at a process with burst 5 and time slice 3. -/
theorem execute_contract_witness :
    (mkProcess 1 0 5 0).remainingTime ≠ 0 ∧
    ((mkProcess 1 0 5 0).execute 3).1 = min 3 (mkProcess 1 0 5 0).remainingTime :=
  ⟨by decide, ((execute_contract (mkProcess 1 0 5 0) 3).2 (by decide)).1⟩

/-! ## C6: remainingTime == 0 iff TERMINATED -/

/-- C6 counterexample: a process constructed with burst time 0 has
`remainingTime == 0` but state `NEW`, so the claimed equivalence fails
immediately after construction. -/
theorem zero_burst_invariant_counterexample :
    (mkProcess 1 0 0 0).remainingTime = 0 ∧
    (mkProcess 1 0 0 0).state ≠ ProcessState.TERMINATED := by decide

/-! ## C9: monotone, non-negative remaining time -/

/-- C9 counterexample: a negative time slice makes `execute` *increase* the
remaining time (burst 5, slice -3 yields remaining 8), so remaining time is
not monotonically non-increasing over arbitrary integer slices. -/
theorem remaining_monotone_counterexample :
    (executeSeq (mkProcess 1 0 5 0) [-3]).remainingTime = 8 ∧
    ¬ (executeSeq (mkProcess 1 0 5 0) [-3]).remainingTime ≤
        (mkProcess 1 0 5 0).remainingTime := by decide

/-- C9 amended: over any sequence of *non-negative* time slices, starting
from a non-negative remaining time, the remaining time never increases and
never becomes negative. -/
theorem remaining_monotone_nonneg (p : Process) (ts : List Int)
    (hp : 0 ≤ p.remainingTime) (hts : ∀ t ∈ ts, 0 ≤ t) :
    (executeSeq p ts).remainingTime ≤ p.remainingTime ∧
    0 ≤ (executeSeq p ts).remainingTime := by
  induction ts generalizing p with
  | nil => exact ⟨le_refl _, hp⟩
  | cons t rest ih =>
    have ht : 0 ≤ t := hts t (List.mem_cons_self t rest)
    have hstep : (p.execute t).2.remainingTime ≤ p.remainingTime ∧
        0 ≤ (p.execute t).2.remainingTime := by
      rw [execute_remaining, execute_fst]
      by_cases h0 : p.remainingTime = 0
      · simp [h0]
      · simp only [h0, if_false]
        rw [Int.min_def]
        split <;> omega
    have hrest : ∀ t' ∈ rest, 0 ≤ t' := fun t' ht' =>
      hts t' (List.mem_cons_of_mem t ht')
    have hmain := ih (p.execute t).2 hstep.2 hrest
    have hcons : executeSeq p (t :: rest) = executeSeq (p.execute t).2 rest := rfl
    rw [hcons]
    exact ⟨le_trans hmain.1 hstep.1, hmain.2⟩

/-- Witness for C9 amended: burst 5 through slices [2, 2, 2]. -/
theorem remaining_monotone_nonneg_witness :
    (executeSeq (mkProcess 1 0 5 0) [2, 2, 2]).remainingTime ≤
      (mkProcess 1 0 5 0).remainingTime ∧
    0 ≤ (executeSeq (mkProcess 1 0 5 0) [2, 2, 2]).remainingTime :=
  remaining_monotone_nonneg (mkProcess 1 0 5 0) [2, 2, 2] (by decide) (by decide)

/-! ## C8: checkArrivals -/

/-- C8 counterexample: a `NEW` process whose arrival time (0) has been
reached at tick 1 is *not* promoted by `checkArrivals(1)`, because the source
compares `arrivalTime == time`, not `arrivalTime <= time`. -/
theorem checkArrivals_le_counterexample :
    (mkProcess 1 0 5 0).state = ProcessState.NEW ∧
    (mkProcess 1 0 5 0).arrivalTime ≤ 1 ∧
    checkArrivals 1 [mkProcess 1 0 5 0] [] = ([mkProcess 1 0 5 0], []) := by
  decide

theorem checkArrivalsGo_spec (time : Int) (ps : List Process) :
    (checkArrivalsGo time ps).1 = ps.map (arrivalPromote time) ∧
    (checkArrivalsGo time ps).2 =
      (ps.filter (fun p =>
        decide (p.arrivalTime = time ∧ p.state = ProcessState.NEW))).map
        (fun p => { p with state := ProcessState.READY }) := by
  induction ps with
  | nil => exact ⟨rfl, rfl⟩
  | cons p rest ih =>
    by_cases h : p.arrivalTime = time ∧ p.state = ProcessState.NEW <;>
      simp [checkArrivalsGo, arrivalPromote, h, ih.1, ih.2]

/-- C8 amended: `checkArrivals(t)` promotes to `READY`, and appends a copy of,
exactly those owned processes whose state is `NEW` and whose arrival time
*equals* `t`; every other process (including `NEW` processes whose arrival
time is already past) is left unchanged. -/
theorem checkArrivals_exact (time : Int) (ps rq : List Process) :
    (checkArrivals time ps rq).1 = ps.map (arrivalPromote time) ∧
    (checkArrivals time ps rq).2 =
      rq ++ (ps.filter (fun p =>
          decide (p.arrivalTime = time ∧ p.state = ProcessState.NEW))).map
        (fun p => { p with state := ProcessState.READY }) := by
  unfold checkArrivals
  dsimp only
  exact ⟨(checkArrivalsGo_spec time ps).1, by rw [(checkArrivalsGo_spec time ps).2]⟩

/-! ## C5: Multilevel Queue band assignment -/

/-- C5 counterexample: with 4 queues a priority-6 process is assigned to
queue 2, not to the last available queue 3 = numQueues - 1; and the band is
*not* kept after insertion: a priority-6 late arrival is stamped with band 2
by `addProcess`, but `run` re-stamps it and then `reset()` zeroes the queue
level, so the arrival handler enqueues it into queue 0 and it still carries
queue level 0 when `run` returns. -/
theorem assignToQueue_last_counterexample :
    (assignToQueue 6 4 = 2 ∧ (4 : Nat) - 1 = 3 ∧ assignToQueue 6 4 ≠ 4 - 1) ∧
    assignToQueue 6 3 = 2 ∧
    ((mkMLQ 3 {} [mkProcess 1 6 2 2]).processes.get? 0).map (·.queueLevel) =
      some 2 ∧
    (mlqArrivals { mlqRunInitState (mkMLQ 3 {} [mkProcess 1 6 2 2]) with
      currentTime := 2 }).queues = [[0], [], []] ∧
    ((mlqRun 8 (mkMLQ 3 {} [mkProcess 1 6 2 2])).processes.get? 0).map
      (fun p => (p.priority, p.queueLevel)) = some (6, 0) := by
  refine ⟨by decide, by decide, by decide, by decide, by decide⟩

theorem set_concat_last {α : Type _} (l : List α) (a b : α) :
    (l ++ [a]).set l.length b = l ++ [b] := by
  induction l with
  | nil => rfl
  | cons x xs ih => simp [ih]

/-! ## C7: MLFQ demotion rule -/

theorem get?_lt_of_some {α : Type _} {l : List α} {n : Nat} {a : α}
    (h : l.get? n = some a) : n < l.length := by
  by_contra hc
  push_neg at hc
  rw [List.get?_eq_none.mpr hc] at h
  exact Option.noConfusion h

theorem dispatchPrep_remaining (time : Int) (p : Process) :
    (dispatchPrep time p).remainingTime = p.remainingTime := by
  unfold dispatchPrep; dsimp only; split <;> rfl

theorem dispatchPrep_queueLevel (time : Int) (p : Process) :
    (dispatchPrep time p).queueLevel = p.queueLevel := by
  unfold dispatchPrep; dsimp only; split <;> rfl

/-- C7: after one MLFQ dispatch of a ready process, its queue level moves
down one level (clamped at the last level) exactly when the process consumed
its entire level quantum and still has remaining work; a process that
terminates, or whose dispatch does not consume the whole quantum, keeps its
level. -/
theorem mlfq_demotion
    (numQueues : Nat) (quantums : List Int) (cfg : SchedulerConfig)
    (activeQueue : Nat) (st : MLFQDispatchState)
    (processIdx : Nat) (restQ : List Nat) (p : Process)
    (hq : st.queues.get? activeQueue = some (processIdx :: restQ))
    (hp : st.processes.get? processIdx = some p)
    (hready : p.state = ProcessState.READY) :
    ((mlfqDispatch numQueues quantums cfg activeQueue st).processes.get?
        processIdx).map (·.queueLevel) =
      some (
        if (p.execute (getQuantumForQueue quantums cfg (activeQueue : Int))).1 =
              getQuantumForQueue quantums cfg (activeQueue : Int) ∧
            (p.execute (getQuantumForQueue quantums cfg
              (activeQueue : Int))).2.remainingTime ≠ 0 then
          if p.queueLevel < (numQueues : Int) - 1 then p.queueLevel + 1
          else p.queueLevel
        else p.queueLevel) := by
  have hlen : processIdx < st.processes.length := get?_lt_of_some hp
  unfold mlfqDispatch
  rw [hq]
  dsimp only
  rw [hp]
  dsimp only
  rw [if_pos hready]
  have hppr := dispatchPrep_remaining st.currentTime p
  have hppl := dispatchPrep_queueLevel st.currentTime p
  have hrem :
      ((dispatchPrep st.currentTime p).execute
          (getQuantumForQueue quantums cfg (activeQueue : Int))).2.remainingTime =
        (p.execute (getQuantumForQueue quantums cfg
          (activeQueue : Int))).2.remainingTime := by
    rw [execute_remaining, execute_remaining, execute_fst, execute_fst, hppr]
  have hfst :
      ((dispatchPrep st.currentTime p).execute
          (getQuantumForQueue quantums cfg (activeQueue : Int))).1 =
        (p.execute (getQuantumForQueue quantums cfg (activeQueue : Int))).1 := by
    rw [execute_fst, execute_fst, hppr]
  have hlev :
      ((dispatchPrep st.currentTime p).execute
          (getQuantumForQueue quantums cfg (activeQueue : Int))).2.queueLevel =
        p.queueLevel := by
    rw [(execute_preserved _ _).2.2.2.2.2.2.2.2, hppl]
  by_cases hdone :
      ((dispatchPrep st.currentTime p).execute
        (getQuantumForQueue quantums cfg (activeQueue : Int))).2.remainingTime = 0
  · rw [if_pos hdone]
    have hcond :
        ¬ ((p.execute (getQuantumForQueue quantums cfg (activeQueue : Int))).1 =
              getQuantumForQueue quantums cfg (activeQueue : Int) ∧
            (p.execute (getQuantumForQueue quantums cfg
              (activeQueue : Int))).2.remainingTime ≠ 0) := by
      rw [← hrem]
      rintro ⟨-, hne⟩
      exact hne hdone
    rw [if_neg hcond]
    cases hlast : st.timeline.getLast? with
    | none =>
      dsimp only
      rw [List.set_set, List.get?_eq_getElem?,
        List.getElem?_set_eq_of_lt _ (by simpa using hlen)]
      dsimp only [Option.map]
      rw [hlev]
    | some e =>
      dsimp only
      by_cases he : e.processId ≠ (dispatchPrep st.currentTime p).pid <;>
        [rw [if_pos he]; rw [if_neg he]] <;>
        · dsimp only
          rw [List.set_set, List.get?_eq_getElem?,
            List.getElem?_set_eq_of_lt _ (by simpa using hlen)]
          dsimp only [Option.map]
          rw [hlev]
  · rw [if_neg hdone]
    have hprem : p.remainingTime ≠ 0 := by
      intro h0
      apply hdone
      rw [execute_remaining, execute_fst, hppr, h0]
      simp
    have hfq :
        ((dispatchPrep st.currentTime p).execute
            (getQuantumForQueue quantums cfg (activeQueue : Int))).1 =
          getQuantumForQueue quantums cfg (activeQueue : Int) := by
      rw [execute_fst, hppr]
      simp only [hprem, if_false]
      have hne :
          min (getQuantumForQueue quantums cfg (activeQueue : Int))
            p.remainingTime ≠ p.remainingTime := by
        intro hminr
        apply hdone
        rw [execute_remaining, execute_fst, hppr]
        simp only [hprem, if_false]
        omega
      rw [Int.min_def] at hne ⊢
      split <;> omega
    have hge :
        ((dispatchPrep st.currentTime p).execute
            (getQuantumForQueue quantums cfg (activeQueue : Int))).1 ≥
          getQuantumForQueue quantums cfg (activeQueue : Int) := le_of_eq hfq.symm
    have hcond :
        (p.execute (getQuantumForQueue quantums cfg (activeQueue : Int))).1 =
            getQuantumForQueue quantums cfg (activeQueue : Int) ∧
          (p.execute (getQuantumForQueue quantums cfg
            (activeQueue : Int))).2.remainingTime ≠ 0 := by
      rw [← hrem, ← hfst]
      exact ⟨hfq, hdone⟩
    rw [if_pos hcond, if_pos hge]
    unfold demoteProcess
    cases hlast : st.timeline.getLast? with
    | none =>
      dsimp only
      rw [List.set_set, List.get?_eq_getElem?,
        List.getElem?_set_eq_of_lt _ (by simpa using hlen)]
      dsimp only [Option.map]
      rw [hlev]
      split <;> simp [hlev]
    | some e =>
      dsimp only
      by_cases he : e.processId ≠ (dispatchPrep st.currentTime p).pid <;>
        [rw [if_pos he]; rw [if_neg he]] <;>
        · dsimp only
          rw [List.set_set, List.get?_eq_getElem?,
            List.getElem?_set_eq_of_lt _ (by simpa using hlen)]
          dsimp only [Option.map]
          rw [hlev]
          split <;> simp [hlev]

/-- Witness for C7: a ready process with burst 5 at level 0 dispatched with
quantum 2 consumes the whole quantum, keeps remaining work, and is demoted
to level 1. -/
theorem mlfq_demotion_witness :
    ((mlfqDispatch 3 (mlfqQuantums 3 { timeQuantum := 2 })
        { timeQuantum := 2 } 0 mlfqWitnessState).processes.get? 0).map
      (·.queueLevel) = some 1 := by
  have h := mlfq_demotion 3 (mlfqQuantums 3 { timeQuantum := 2 })
    { timeQuantum := 2 } 0 mlfqWitnessState 0 []
    ({ mkProcess 1 0 5 0 with state := ProcessState.READY })
    rfl rfl rfl
  exact h.trans (by decide)

/-! ## C4: Round Robin scenario A -/

/-- C4: on the Round Robin scheduler with quantum 4 and context-switch cost
1 and two zero-arrival processes of bursts 5 and 3 (in that input order),
`run` terminates with total execution time 10, average waiting time 5,
average turnaround time 9, and exactly 2 context switches. -/
theorem rr_scenarioA_metrics :
    isComplete (rrRun 32 scenarioA).processes = true ∧
    (rrRun 32 scenarioA).metrics.totalExecutionTime = 10 ∧
    (rrRun 32 scenarioA).metrics.avgWaitingTime = 5 ∧
    (rrRun 32 scenarioA).metrics.avgTurnaroundTime = 9 ∧
    (rrRun 32 scenarioA).metrics.totalContextSwitches = 2 := by
  refine ⟨by decide, by decide, ?_, ?_, by decide⟩
  · have h : (rrRun 32 scenarioA).metrics.avgWaitingTime =
        ((10 : Int) : Rat) / ((2 : Int) : Rat) := rfl
    rw [h]
    norm_num
  · have h : (rrRun 32 scenarioA).metrics.avgTurnaroundTime =
        ((18 : Int) : Rat) / ((2 : Int) : Rat) := rfl
    rw [h]
    norm_num

/-! ## C10: non-preemptive priority counts no context switches -/

theorem calculateMetrics_totalContextSwitches (ps : List Process)
    (tl : List ExecutionEvent) (cs cst ct : Int) :
    (calculateMetrics ps tl cs cst ct).totalContextSwitches = cs := rfl

theorem prioArrivals_cs (st : PrioState) (h : st.preemptive = false) :
    (prioArrivals st).contextSwitches = st.contextSwitches ∧
    (prioArrivals st).preemptive = false := by
  unfold prioArrivals
  refine foldl_invariant _
    (fun s => s.contextSwitches = st.contextSwitches ∧ s.preemptive = false)
    ?_ _ st ⟨rfl, h⟩
  intro s i hs
  dsimp only
  cases hget : s.processes.get? i with
  | none => simpa [hget] using hs
  | some p =>
    simp only [hget]
    by_cases hc : p.state = ProcessState.NEW ∧ p.arrivalTime ≤ s.currentTime
    · rw [if_pos hc]
      split
      · next hcond => exact absurd hcond.1 (by simp [hs.2])
      · exact hs
    · rw [if_neg hc]
      exact hs

theorem applyAging_cs (st : PrioState) :
    (applyAging st).contextSwitches = st.contextSwitches ∧
    (applyAging st).preemptive = st.preemptive := by
  unfold applyAging
  by_cases ha : st.cfg.agingEnabled
  · simp only [ha]
    refine foldl_invariant _
      (fun s => s.contextSwitches = st.contextSwitches ∧
        s.preemptive = st.preemptive) ?_ _ st ⟨rfl, rfl⟩
    intro s i hs
    dsimp only
    cases hget : s.processes.get? i with
    | none => simpa [hget] using hs
    | some p =>
      simp only [hget]
      by_cases hr : p.state = ProcessState.READY
      · rw [if_pos hr]
        (repeat' split) <;> exact hs
      · rw [if_neg hr]
        exact hs
  · simp [ha]

theorem prioSelect_cs (i : Nat) (st : PrioState) :
    (prioSelect i st).contextSwitches = st.contextSwitches ∧
    (prioSelect i st).preemptive = st.preemptive := by
  unfold prioSelect
  cases hget : st.processes.get? i with
  | none => exact ⟨rfl, rfl⟩
  | some p =>
    dsimp only
    cases hlast : st.timeline.getLast? with
    | none => exact ⟨rfl, rfl⟩
    | some e =>
      dsimp only
      split <;> exact ⟨rfl, rfl⟩

theorem prioDispatch_cs (i : Nat) (st : PrioState) (completed : Int)
    (h : st.preemptive = false) :
    (prioDispatch i st completed).1.contextSwitches = st.contextSwitches ∧
    (prioDispatch i st completed).1.preemptive = false := by
  unfold prioDispatch
  cases hget : st.processes.get? i with
  | none => exact ⟨rfl, h⟩
  | some p =>
    dsimp only
    simp only [h, Bool.false_eq_true, if_false]
    split
    · exact ⟨rfl, rfl⟩
    · exact ⟨rfl, rfl⟩

theorem prioLoop_cs (fuel : Nat) (completed : Int) (st : PrioState)
    (h : st.preemptive = false) (h0 : st.contextSwitches = 0) :
    (prioLoop fuel completed st).contextSwitches = 0 ∧
    (prioLoop fuel completed st).preemptive = false := by
  induction fuel generalizing completed st with
  | zero => exact ⟨h0, h⟩
  | succ fuel ih =>
    unfold prioLoop
    split
    · have ha := prioArrivals_cs st h
      have hb := applyAging_cs (prioArrivals st)
      have hpre : (applyAging (prioArrivals st)).preemptive = false := by
        rw [hb.2, ha.2]
      have hcs : (applyAging (prioArrivals st)).contextSwitches = 0 := by
        rw [hb.1, ha.1, h0]
      dsimp only
      rcases hidx : (applyAging (prioArrivals st)).currentIdx with _ | i
      · rcases hfind : findHighestPriority (applyAging (prioArrivals st)).processes
            (applyAging (prioArrivals st)).currentTime with _ | j
        · dsimp only
          exact ih _ _ hpre hcs
        · dsimp only
          have hsel := prioSelect_cs j (applyAging (prioArrivals st))
          have hdis := prioDispatch_cs j (prioSelect j (applyAging (prioArrivals st)))
            completed (by rw [hsel.2, hpre])
          exact ih _ _ (by rw [hdis.2]) (by rw [hdis.1, hsel.1, hcs])
      · dsimp only
        have hdis := prioDispatch_cs i (applyAging (prioArrivals st)) completed hpre
        exact ih _ _ (by rw [hdis.2]) (by rw [hdis.1, hcs])
    · exact ⟨h0, h⟩

/-- C10: on a non-preemptive `PriorityScheduler`, `run` reports zero context
switches: the counter is incremented only on the preemption paths, which are
guarded by the preemptive flag, even though the clock is advanced by the
context-switch cost between dispatches of different pids. -/
theorem priority_nonpreemptive_zero_cs (fuel : Nat) (cfg : SchedulerConfig)
    (ps : List Process) :
    (prioRun fuel (mkPriority false cfg ps)).contextSwitches = 0 ∧
    (prioRun fuel (mkPriority false cfg ps)).metrics.totalContextSwitches = 0 := by
  unfold prioRun
  dsimp only
  rw [calculateMetrics_totalContextSwitches]
  have h := prioLoop_cs fuel 0
    { mkPriority false cfg ps with
      currentTime := 0
      currentIdx := none
      timeline := []
      contextSwitches := 0
      processes := (mkPriority false cfg ps).processes.map (fun p =>
        let q := p.reset
        if q.arrivalTime = 0 then { q with state := ProcessState.READY } else q) }
    rfl rfl
  exact ⟨h.1, h.1⟩

theorem mem_insertByArrival {q p : Process} :
    ∀ {l : List Process}, q ∈ insertByArrival p l → q = p ∨ q ∈ l
  | [], h => by
    unfold insertByArrival at h
    exact Or.inl (List.mem_singleton.mp h)
  | x :: xs, h => by
    unfold insertByArrival at h
    split at h
    · rcases List.mem_cons.mp h with h1 | h2
      · exact Or.inr (List.mem_cons.mpr (Or.inl h1))
      · rcases mem_insertByArrival h2 with h3 | h4
        · exact Or.inl h3
        · exact Or.inr (List.mem_cons.mpr (Or.inr h4))
    · rcases List.mem_cons.mp h with h1 | h2
      · exact Or.inl h1
      · exact Or.inr h2

theorem mem_sortByArrival {q : Process} :
    ∀ {ps : List Process}, q ∈ sortByArrival ps → q ∈ ps
  | [], h => by
    unfold sortByArrival at h
    exact absurd h (List.not_mem_nil q)
  | p :: rest, h => by
    unfold sortByArrival at h
    rcases mem_insertByArrival h with h1 | h2
    · exact h1 ▸ List.mem_cons_self p rest
    · exact List.mem_cons.mpr (Or.inr (mem_sortByArrival h2))

/-! ## C2: waiting time identity at termination -/

theorem waiting_identity_counterexample :
    ((prioRun 12 prioWaitCE).processes.get? 1).map
      (fun p => (p.state, p.waitingTime, p.turnaroundTime, p.burstTime)) =
      some (ProcessState.TERMINATED, 5, 9, 3) ∧ (5 : Int) ≠ 9 - 3 := by
  decide

theorem arrivalPromote_waitingIdentity (time : Int) (p : Process)
    (h : waitingIdentity p) : waitingIdentity (arrivalPromote time p) := by
  unfold arrivalPromote
  split
  · intro hterm
    exact absurd hterm (by simp)
  · exact h

theorem rrArrive_processes (t : Int) (st : RRState) :
    (rrArrive t st).processes = st.processes.map (arrivalPromote t) := by
  unfold rrArrive checkArrivals
  exact (checkArrivalsGo_spec t st.processes).1

theorem rrEnqueueScan_processes (e : Option Nat) (st : RRState) :
    (rrEnqueueScan e st).processes = st.processes := by
  unfold rrEnqueueScan
  refine foldl_invariant _ (fun s => s.processes = st.processes) ?_ _ st rfl
  intro s i hs
  dsimp only
  split
  · exact hs
  · cases hget : s.processes.get? i with
    | none => simpa [hget] using hs
    | some q =>
      simp only [hget]
      split
      · exact hs
      · exact hs

theorem rrArriveRange_processes (a : Int) (st : RRState) :
    ∃ g : Process → Process,
      (rrArriveRange a st).processes = st.processes.map g ∧
      ∀ q, waitingIdentity q → waitingIdentity (g q) := by
  unfold rrArriveRange
  generalize List.range (st.currentTime - a).toNat = l
  induction l generalizing st with
  | nil => exact ⟨id, by simp, fun q h => h⟩
  | cons k rest ih =>
    obtain ⟨g, hg, hpres⟩ := ih (rrArrive (a + 1 + (k : Int)) st)
    refine ⟨g ∘ arrivalPromote (a + 1 + (k : Int)), ?_, ?_⟩
    · rw [List.foldl_cons, hg, rrArrive_processes, List.map_map]
    · intro q hq
      exact hpres _ (arrivalPromote_waitingIdentity _ _ hq)

theorem overwrite_termOk (a : Int) (idx : Nat) (p3 pc : Process)
    (st3 : RRState) (l : List Process)
    (hst3 : st3.processes = l.set idx p3)
    (hl : ∀ q ∈ l, waitingIdentity q)
    (hpc : waitingIdentity pc) :
    ∀ q ∈ (rrEnqueueScan (some idx) (rrArriveRange a st3)).processes.set idx pc,
      waitingIdentity q := by
  obtain ⟨g, hg, hpres⟩ := rrArriveRange_processes a st3
  rw [rrEnqueueScan_processes, hg, hst3, List.map_set, List.set_set]
  intro q hq
  rcases List.mem_or_eq_of_mem_set hq with hq2 | rfl
  · obtain ⟨p', hp', rfl⟩ := List.mem_map.mp hq2
    exact hpres _ (hl p' hp')
  · exact hpc

theorem rrDispatch_termOk (idx : Nat) (p : Process) (st : RRState)
    (h : ∀ q ∈ st.processes, waitingIdentity q) :
    ∀ q ∈ (rrDispatch idx p st).processes, waitingIdentity q := by
  unfold rrDispatch
  dsimp only
  intro q hq
  repeat' split at hq
  all_goals (
    dsimp only at hq
    first
    | exact overwrite_termOk _ idx _ _ _ st.processes rfl h
        (fun _ => rfl) q hq
    | exact overwrite_termOk _ idx _ _ _ st.processes rfl h
        (fun hterm => absurd hterm (by simp)) q hq)

theorem rrLoop_termOk (fuel : Nat) (st : RRState)
    (h : ∀ q ∈ st.processes, waitingIdentity q) :
    ∀ q ∈ (rrLoop fuel st).processes, waitingIdentity q := by
  induction fuel generalizing st with
  | zero => exact h
  | succ fuel ih =>
    unfold rrLoop
    split
    · exact h
    · dsimp only
      have h2 : ∀ q ∈ (rrEnqueueScan none
          (rrArrive st.currentTime st)).processes, waitingIdentity q := by
        rw [rrEnqueueScan_processes, rrArrive_processes]
        intro q hq
        obtain ⟨p', hp', rfl⟩ := List.mem_map.mp hq
        exact arrivalPromote_waitingIdentity _ _ (h p' hp')
      rcases hqq : (rrEnqueueScan none (rrArrive st.currentTime st)).processQueue
        with _ | ⟨idx, rest⟩
      · dsimp only
        by_cases hna : rrNextArrival
            (rrEnqueueScan none (rrArrive st.currentTime st)).processes
            (rrEnqueueScan none (rrArrive st.currentTime st)).currentTime ≠ intMax
        · rw [if_pos hna]
          exact ih _ h2
        · rw [if_neg hna]
          exact h2
      · dsimp only
        rcases hget :
            ((rrEnqueueScan none (rrArrive st.currentTime st)).processes.get? idx)
          with _ | p
        · exact ih _ h2
        · dsimp only
          by_cases hc : p.isCompleted = true
          · rw [if_pos hc]
            exact ih _ h2
          · rw [if_neg hc]
            exact ih _ (rrDispatch_termOk idx p _ h2)

/-- C2 amended: in the Round Robin scheduler every terminated process in the
final state of `run` satisfies `waitingTime == turnaroundTime - burstTime`
(Round Robin assigns the waiting time from exactly this identity at
completion).  In the Priority, Multilevel Queue and MLFQ schedulers, waiting
time is accumulated incrementally and misses context-switch delays and
partial overlaps of mid-slice arrivals, so the identity can fail there. -/
theorem rr_waiting_identity (fuel : Nat) (st : RRState) (p : Process)
    (hmem : p ∈ (rrRun fuel st).processes)
    (hterm : p.state = ProcessState.TERMINATED) :
    p.waitingTime = p.turnaroundTime - p.burstTime := by
  unfold rrRun at hmem
  split at hmem
  · next hempty =>
    rw [hempty] at hmem
    exact absurd hmem (List.not_mem_nil p)
  · dsimp only at hmem
    refine rrLoop_termOk fuel _ ?_ p hmem hterm
    rw [rrArrive_processes]
    intro q hq
    obtain ⟨p', hp', rfl⟩ := List.mem_map.mp hq
    apply arrivalPromote_waitingIdentity
    dsimp only at hp'
    have hp'' := mem_sortByArrival hp'
    rw [rrReset] at hp''
    dsimp only at hp''
    obtain ⟨p0, _, rfl⟩ := List.mem_map.mp hp''
    intro hterm2
    exact absurd hterm2 (by simp [Process.reset])

/-- Witness for C2 amended: the terminated process of a one-process Round
Robin run. -/
theorem rr_waiting_identity_witness :
    (⟨1, 0, 3, 0, 0, 0, 3, 0, 3, 0, true, ProcessState.TERMINATED⟩ :
        Process).waitingTime =
      (⟨1, 0, 3, 0, 0, 0, 3, 0, 3, 0, true, ProcessState.TERMINATED⟩ :
        Process).turnaroundTime -
      (⟨1, 0, 3, 0, 0, 0, 3, 0, 3, 0, true, ProcessState.TERMINATED⟩ :
        Process).burstTime :=
  rr_waiting_identity 8 rrSingle _ (by decide) rfl


/-! ## C3: repeated runs -/

theorem dispatchPrep_core (t : Int) (p : Process) :
    procCore (dispatchPrep t p) = procCore p := by
  unfold dispatchPrep
  dsimp only
  split <;> rfl

theorem execute_core (p : Process) (t : Int) :
    procCore (p.execute t).2 = procCore p := by
  have h := execute_preserved p t
  unfold procCore
  rw [h.1, h.2.1, h.2.2.1, h.2.2.2.1]

theorem waitCredit_core (t a pid : Int) (q : Process) :
    procCore (waitCredit t a pid q) = procCore q := by
  unfold waitCredit
  split <;> rfl

theorem mlqInitProcess_core (nQ : Nat) (p : Process) :
    procCore (mlqInitProcess nQ p) = procCore p := by
  unfold mlqInitProcess Process.reset
  dsimp only
  split <;> rfl

theorem get?_set_self {α : Type _} {l : List α} {i : Nat} {p : α} (p' : α)
    (h : l.get? i = some p) : (l.set i p').get? i = some p' := by
  have hlt := get?_lt_of_some h
  rw [List.get?_eq_getElem?, List.getElem?_set_eq_of_lt _ (by simpa using hlt)]

theorem map_core_set {l : List Process} {i : Nat} {p p' : Process}
    (hget : l.get? i = some p) (hcore : procCore p' = procCore p) :
    (l.set i p').map procCore = l.map procCore := by
  induction l generalizing i with
  | nil => simp at hget
  | cons x xs ih =>
    cases i with
    | zero =>
      simp only [List.get?] at hget
      cases hget
      simp [hcore]
    | succ n =>
      simp only [List.get?] at hget
      simp [ih hget]

theorem map_core_of_pointwise (f : Process → Process)
    (hf : ∀ p, procCore (f p) = procCore p) (l : List Process) :
    (l.map f).map procCore = l.map procCore := by
  rw [List.map_map]
  exact List.map_congr_left (fun a _ => hf a)

theorem mlqArrivals_core (L : MLQLoopState) :
    (mlqArrivals L).processes.map procCore = L.processes.map procCore := by
  unfold mlqArrivals
  refine foldl_invariant _
    (fun s => s.processes.map procCore = L.processes.map procCore) ?_ _ L rfl
  intro s i hs
  dsimp only
  cases hget : s.processes.get? i with
  | none => simpa [hget] using hs
  | some p =>
    simp only [hget]
    split
    · dsimp only
      rw [map_core_set hget
        (show procCore { p with state := ProcessState.READY } = procCore p
          from rfl)]
      exact hs
    · exact hs

theorem map_core_set_set_map (l : List Process) (i : Nat)
    (p p2 p3 pf : Process) (w : Process → Process)
    (hget : l.get? i = some p)
    (h2 : procCore p2 = procCore p)
    (h3 : procCore p3 = procCore p2)
    (hw : ∀ q, procCore (w q) = procCore q)
    (hf : procCore pf = procCore p3) :
    ((((l.set i p2).set i p3).map w).set i pf).map procCore =
      l.map procCore := by
  have hg2 : (l.set i p2).get? i = some p2 := get?_set_self _ hget
  have hg3 : ((l.set i p2).set i p3).get? i = some p3 := get?_set_self _ hg2
  have hg4 : (((l.set i p2).set i p3).map w).get? i = some (w p3) := by
    rw [List.get?_eq_getElem?, List.getElem?_map, ← List.get?_eq_getElem?, hg3]
    rfl
  rw [map_core_set hg4 (by rw [hf, hw p3]), map_core_of_pointwise w hw,
    map_core_set hg2 h3, map_core_set hget h2]

theorem mlqExecuteQueue_core (cfg : SchedulerConfig) (queueIdx : Nat)
    (st : MLQLoopState) :
    (mlqExecuteQueue cfg queueIdx st).processes.map procCore =
      st.processes.map procCore := by
  unfold mlqExecuteQueue
  cases hq : st.queues.get? queueIdx with
  | none => rfl
  | some ql =>
    dsimp only
    cases ql with
    | nil => rfl
    | cons processIdx restQ =>
      dsimp only
      cases hget : st.processes.get? processIdx with
      | none => rfl
      | some p =>
        dsimp only
        split
        · rfl
        · try dsimp only
          cases hlast : st.timeline.getLast? with
          | none =>
            dsimp only
            repeat' split
            all_goals try dsimp only
            all_goals
              exact map_core_set_set_map _ _ _ _ _ _ _ hget
                (dispatchPrep_core _ _) (execute_core _ _)
                (fun q => waitCredit_core _ _ _ q) rfl
          | some e =>
            dsimp only
            repeat' split
            all_goals try dsimp only
            all_goals
              exact map_core_set_set_map _ _ _ _ _ _ _ hget
                (dispatchPrep_core _ _) (execute_core _ _)
                (fun q => waitCredit_core _ _ _ q) rfl


theorem mlqLoop_core (cfg : SchedulerConfig) (fuel : Nat) (L : MLQLoopState) :
    (mlqLoop cfg fuel L).processes.map procCore =
      L.processes.map procCore := by
  induction fuel generalizing L with
  | zero => rfl
  | succ fuel ih =>
    unfold mlqLoop
    split
    · dsimp only
      cases hact : getActiveQueue (mlqArrivals L).queues with
      | none =>
        dsimp only
        rw [ih]
        exact mlqArrivals_core L
      | some aq =>
        dsimp only
        rw [ih]
        dsimp only
        rw [mlqExecuteQueue_core]
        exact mlqArrivals_core L
    · rfl

theorem mlqInitProcess_congr (nQ : Nat) {p q : Process}
    (h : procCore p = procCore q) :
    mlqInitProcess nQ p = mlqInitProcess nQ q := by
  cases p
  cases q
  simp only [procCore, Prod.mk.injEq] at h
  obtain ⟨h1, h2, h3, h4⟩ := h
  subst h1
  subst h2
  subst h3
  subst h4
  rfl

theorem map_init_congr (nQ : Nat) :
    ∀ {l l' : List Process}, l.map procCore = l'.map procCore →
      l.map (mlqInitProcess nQ) = l'.map (mlqInitProcess nQ)
  | [], [], _ => rfl
  | [], _ :: _, h => by simp at h
  | _ :: _, [], h => by simp at h
  | x :: xs, y :: ys, h => by
    simp only [List.map_cons, List.cons.injEq] at h ⊢
    exact ⟨mlqInitProcess_congr nQ h.1, map_init_congr nQ h.2⟩

theorem mlqInitQueuesGo_congr (nQ : Nat) :
    ∀ {l l' : List Process} (i : Nat) (qs : List (List Nat)),
      l.map procCore = l'.map procCore →
      mlqInitQueuesGo nQ i l qs = mlqInitQueuesGo nQ i l' qs
  | [], [], _, _, _ => rfl
  | [], _ :: _, _, _, h => by simp at h
  | _ :: _, [], _, _, h => by simp at h
  | x :: xs, y :: ys, i, qs, h => by
    simp only [List.map_cons, List.cons.injEq] at h
    have harr : x.arrivalTime = y.arrivalTime := by
      have := h.1
      simp only [procCore, Prod.mk.injEq] at this
      exact this.2.2.2
    have hprio : x.priority = y.priority := by
      have := h.1
      simp only [procCore, Prod.mk.injEq] at this
      exact this.2.1
    unfold mlqInitQueuesGo
    rw [harr, hprio]
    exact mlqInitQueuesGo_congr nQ (i + 1) _ h.2

theorem mlqInitQueues_congr (nQ : Nat) {l l' : List Process}
    (h : l.map procCore = l'.map procCore) :
    mlqInitQueues nQ l = mlqInitQueues nQ l' :=
  mlqInitQueuesGo_congr nQ 0 _ h

theorem mkMLQ_contextSwitches (nQ : Nat) (cfg : SchedulerConfig)
    (ps : List Process) : (mkMLQ nQ cfg ps).contextSwitches = 0 := by
  unfold mkMLQ
  refine foldl_invariant _ (fun s : MLQState => s.contextSwitches = 0) ?_ _ _ rfl
  intro s a hs
  unfold mlqAddProcess
  exact hs


theorem mlqRun_processes_core (fuel nQ : Nat) (cfg : SchedulerConfig)
    (ps : List Process) :
    (mlqRun fuel (mkMLQ nQ cfg ps)).processes.map procCore
      = (mkMLQ nQ cfg ps).processes.map procCore := by
  show (mlqLoop (mkMLQ nQ cfg ps).cfg fuel
      (mlqRunInitState (mkMLQ nQ cfg ps))).processes.map procCore = _
  rw [mlqLoop_core]
  exact map_core_of_pointwise _ (fun p => mlqInitProcess_core _ p) _

theorem mlqRunInitState_repeat (fuel nQ : Nat) (cfg : SchedulerConfig)
    (ps : List Process) :
    mlqRunInitState (mlqRun fuel (mkMLQ nQ cfg ps))
      = mlqRunInitState (mkMLQ nQ cfg ps) := by
  have h1 := mlqRun_processes_core fuel nQ cfg ps
  unfold mlqRunInitState
  rw [show (mlqRun fuel (mkMLQ nQ cfg ps)).numQueues
      = (mkMLQ nQ cfg ps).numQueues from rfl]
  rw [map_init_congr (mkMLQ nQ cfg ps).numQueues h1,
      mlqInitQueues_congr (mkMLQ nQ cfg ps).numQueues h1]

/-- C3 counterexample: on a two-process workload the first
`MultilevelQueueScheduler::run` reports one context switch, but a second
`run()` on the same instance reports two, because `run` never resets the
`contextSwitches` member; the metrics of the two calls differ. -/
theorem mlq_second_run_cs_counterexample :
    (mlqRun 16 mlqTwiceCE).metrics.totalContextSwitches = 1 ∧
    (mlqRun 16 (mlqRun 16 mlqTwiceCE)).metrics.totalContextSwitches = 2 := by
  constructor <;> decide

/-- C3 (amended): a second `MultilevelQueueScheduler::run()` on the same
instance reproduces the first call's timeline and final process list exactly
(the per-process re-initialization makes the simulation depend only on the
pid/priority/burst/arrival core, which the loop preserves), but the
context-switch member is not reset by `run`, so after the second call it is
double the first call's value and the reported
`metrics.totalContextSwitches` doubles as well. -/
theorem mlq_run_twice (fuel nQ : Nat) (cfg : SchedulerConfig)
    (ps : List Process) :
    (mlqRun fuel (mlqRun fuel (mkMLQ nQ cfg ps))).timeline
        = (mlqRun fuel (mkMLQ nQ cfg ps)).timeline ∧
    (mlqRun fuel (mlqRun fuel (mkMLQ nQ cfg ps))).processes
        = (mlqRun fuel (mkMLQ nQ cfg ps)).processes ∧
    (mlqRun fuel (mlqRun fuel (mkMLQ nQ cfg ps))).contextSwitches
        = 2 * (mlqRun fuel (mkMLQ nQ cfg ps)).contextSwitches ∧
    (mlqRun fuel (mlqRun fuel (mkMLQ nQ cfg ps))).metrics.totalContextSwitches
        = 2 * (mlqRun fuel (mkMLQ nQ cfg ps)).metrics.totalContextSwitches := by
  have hloop : mlqLoop (mlqRun fuel (mkMLQ nQ cfg ps)).cfg fuel
        (mlqRunInitState (mlqRun fuel (mkMLQ nQ cfg ps)))
      = mlqLoop (mkMLQ nQ cfg ps).cfg fuel
        (mlqRunInitState (mkMLQ nQ cfg ps)) := by
    rw [mlqRunInitState_repeat]
    rfl
  have hcs1 : (mlqRun fuel (mkMLQ nQ cfg ps)).contextSwitches
      = ((mlqLoop (mkMLQ nQ cfg ps).cfg fuel
          (mlqRunInitState (mkMLQ nQ cfg ps))).csDelta : Int) := by
    show (mkMLQ nQ cfg ps).contextSwitches
        + ((mlqLoop (mkMLQ nQ cfg ps).cfg fuel
            (mlqRunInitState (mkMLQ nQ cfg ps))).csDelta : Int) = _
    rw [mkMLQ_contextSwitches, zero_add]
  have hcs2 : (mlqRun fuel (mlqRun fuel (mkMLQ nQ cfg ps))).contextSwitches
      = 2 * (mlqRun fuel (mkMLQ nQ cfg ps)).contextSwitches := by
    show (mlqRun fuel (mkMLQ nQ cfg ps)).contextSwitches
        + ((mlqLoop (mlqRun fuel (mkMLQ nQ cfg ps)).cfg fuel
            (mlqRunInitState (mlqRun fuel (mkMLQ nQ cfg ps)))).csDelta : Int)
      = 2 * (mlqRun fuel (mkMLQ nQ cfg ps)).contextSwitches
    rw [hloop, hcs1]
    ring
  refine ⟨?_, ?_, hcs2, ?_⟩
  · show (mlqLoop (mlqRun fuel (mkMLQ nQ cfg ps)).cfg fuel
        (mlqRunInitState (mlqRun fuel (mkMLQ nQ cfg ps)))).timeline
      = (mlqRun fuel (mkMLQ nQ cfg ps)).timeline
    rw [hloop]
    rfl
  · show (mlqLoop (mlqRun fuel (mkMLQ nQ cfg ps)).cfg fuel
        (mlqRunInitState (mlqRun fuel (mkMLQ nQ cfg ps)))).processes
      = (mlqRun fuel (mkMLQ nQ cfg ps)).processes
    rw [hloop]
    rfl
  · have e2 :
        (mlqRun fuel (mlqRun fuel (mkMLQ nQ cfg ps))).metrics.totalContextSwitches
      = (mlqRun fuel (mlqRun fuel (mkMLQ nQ cfg ps))).contextSwitches := rfl
    have e1 : (mlqRun fuel (mkMLQ nQ cfg ps)).metrics.totalContextSwitches
      = (mlqRun fuel (mkMLQ nQ cfg ps)).contextSwitches := rfl
    rw [e2, e1, hcs2]


/-! ## Run-level invariant machinery (C5, C6) -/

theorem enum_get? {α : Type _} {l : List α} {k : Nat} {b : α}
    (h : (k, b) ∈ l.enum) : l.get? k = some b := by
  have h2 := List.mem_enumFrom h
  have hk : k < l.length := by simpa using h2.2.1
  have hb : b = l.get ⟨k, hk⟩ := by simpa using h2.2.2
  rw [List.get?_eq_getElem?, List.getElem?_eq_getElem hk, hb]
  rfl

theorem foldl_invariant_mem {α β : Type _} (f : β → α → β) (P : β → Prop) :
    ∀ (l : List α) (s : β), (∀ a ∈ l, ∀ t, P t → P (f t a)) → P s →
      P (l.foldl f s)
  | [], _, _, hs => hs
  | a :: l, s, h, hs =>
    foldl_invariant_mem f P l (f s a)
      (fun b hb t ht => h b (List.mem_cons_of_mem a hb) t ht)
      (h a (List.mem_cons_self a l) s hs)

theorem forall_mem_set {α : Type _} (P : α → Prop) {l : List α} {i : Nat}
    {v : α} (hl : ∀ q ∈ l, P q) (hv : P v) : ∀ q ∈ l.set i v, P q := by
  intro q hq
  rcases List.mem_or_eq_of_mem_set hq with h1 | rfl
  · exact hl q h1
  · exact hv

theorem forall_mem_map {α β : Type _} (P : β → Prop) (f : α → β)
    {l : List α} (h : ∀ a ∈ l, P (f a)) : ∀ q ∈ l.map f, P q := by
  intro q hq
  obtain ⟨a, ha, rfl⟩ := List.mem_map.mp hq
  exact h a ha

theorem forall_mem_dispatch_chain (P : Process → Prop) (w : Process → Process)
    {l : List Process} (i : Nat) (p2 p3 pf : Process)
    (hl : ∀ q ∈ l, P q) (h2 : P p2) (h3 : P p3)
    (hw : ∀ q, P q → P (w q)) (hf : P pf) :
    ∀ q ∈ (((l.set i p2).set i p3).map w).set i pf, P q := by
  refine forall_mem_set P ?_ hf
  intro q hq
  obtain ⟨r, hr, rfl⟩ := List.mem_map.mp hq
  refine hw r ?_
  rcases List.mem_or_eq_of_mem_set hr with h1 | rfl
  · rcases List.mem_or_eq_of_mem_set h1 with h0 | rfl
    · exact hl r h0
    · exact h2
  · exact h3

theorem queuePush_get?_ne (qs : List (List Nat)) (qi i j : Nat) (hne : j ≠ qi) :
    (queuePush qs qi i).get? j = qs.get? j := by
  unfold queuePush
  cases hget : qs.get? qi with
  | none => rfl
  | some l =>
    dsimp only
    rw [List.get?_eq_getElem?, List.get?_eq_getElem?,
      List.getElem?_set_ne (fun e => hne e.symm)]

theorem execute_inv (p : Process) (t : Int) (h : procInvariant p) :
    procInvariant (p.execute t).2 := by
  unfold procInvariant at h ⊢
  rw [execute_remaining, execute_state_closed, execute_fst]
  by_cases h0 : p.remainingTime = 0
  · simpa [h0] using h
  · simp only [h0, if_false]
    split <;> simp_all

theorem reset_inv (p : Process) (h : p.burstTime ≠ 0) :
    procInvariant p.reset := by
  simp [procInvariant, Process.reset, h]

theorem reset_ready_inv (p : Process) (h : p.burstTime ≠ 0) :
    procInvariant { p.reset with state := ProcessState.READY } := by
  simp [procInvariant, Process.reset, h]

theorem inv_promote (q : Process) (hq : procInvariant q)
    (hnew : q.state ≠ ProcessState.TERMINATED) :
    procInvariant { q with state := ProcessState.READY } := by
  unfold procInvariant at hq ⊢
  constructor
  · intro h0
    exact absurd (hq.mp h0) hnew
  · intro hst
    exact ProcessState.noConfusion hst

theorem inv_promote0 (q : Process) (hq : procInvariant q)
    (hnew : q.state ≠ ProcessState.TERMINATED) :
    procInvariant { q with
      state := ProcessState.READY
      queueLevel := 0 } := by
  unfold procInvariant at hq ⊢
  constructor
  · intro h0
    exact absurd (hq.mp h0) hnew
  · intro hst
    exact ProcessState.noConfusion hst

theorem dispatchPrep_inv (t : Int) (q : Process)
    (hready : q.state = ProcessState.READY) (hq : procInvariant q) :
    procInvariant (dispatchPrep t q) := by
  have h0 : q.remainingTime ≠ 0 := fun hz =>
    absurd (hready.symm.trans (hq.mp hz)) (by decide)
  unfold dispatchPrep
  dsimp only
  split <;>
    (unfold procInvariant
     constructor
     · intro hr
       exact absurd hr h0
     · intro hst
       exact ProcessState.noConfusion hst)

theorem inv_complete (q : Process) (ct ta : Int) (h0 : q.remainingTime = 0) :
    procInvariant { q with
      state := ProcessState.TERMINATED
      completionTime := ct
      turnaroundTime := ta } := by
  unfold procInvariant
  constructor
  · intro _
    rfl
  · intro _
    exact h0

theorem inv_requeue (q : Process) (h0 : ¬ q.remainingTime = 0) :
    procInvariant { q with state := ProcessState.READY } := by
  unfold procInvariant
  constructor
  · intro hr
    exact absurd hr h0
  · intro hst
    exact ProcessState.noConfusion hst

theorem inv_requeue_demote (nQ : Nat) (q : Process)
    (h0 : ¬ q.remainingTime = 0) :
    procInvariant { demoteProcess nQ q with state := ProcessState.READY } := by
  unfold demoteProcess
  split
  · exact inv_requeue _ h0
  · exact inv_requeue _ h0

theorem waitCredit_inv (t a pid : Int) (q : Process) (h : procInvariant q) :
    procInvariant (waitCredit t a pid q) := by
  unfold waitCredit
  split
  · exact h
  · exact h

theorem prioWaitCredit_inv (t a : Int) (q : Process) (h : procInvariant q) :
    procInvariant (prioWaitCredit t a q) := by
  unfold prioWaitCredit
  split
  · exact h
  · exact h

theorem arrivalPromote_inv (t : Int) (q : Process) (h : procInvariant q) :
    procInvariant (arrivalPromote t q) := by
  unfold arrivalPromote
  split
  · next hc =>
    exact inv_promote q h (fun hT => absurd (hc.2.symm.trans hT) (by decide))
  · exact h

theorem inv_rr_complete (p3 : Process) (ct ta wt : Int)
    (h0 : p3.isCompleted = true) :
    procInvariant { p3 with
      state := ProcessState.TERMINATED
      completionTime := ct
      turnaroundTime := ta
      waitingTime := wt } := by
  have h1 : p3.remainingTime = 0 := by
    unfold Process.isCompleted at h0
    simpa using h0
  unfold procInvariant
  constructor
  · intro _
    rfl
  · intro _
    exact h1

theorem inv_rr_requeue (p3 : Process) (h0 : ¬ p3.isCompleted = true) :
    procInvariant { p3 with state := ProcessState.READY } := by
  refine inv_requeue _ (fun hr => h0 ?_)
  unfold Process.isCompleted
  simp [hr]


theorem mlqArrivals_pres (P : Process → Prop)
    (harr : ∀ q : Process, q.state = ProcessState.NEW → P q →
      P { q with state := ProcessState.READY })
    (st : MLQLoopState) (h : ∀ q ∈ st.processes, P q) :
    ∀ q ∈ (mlqArrivals st).processes, P q := by
  unfold mlqArrivals
  refine foldl_invariant _ (fun s => ∀ q ∈ s.processes, P q) ?_ _ st h
  intro s i hs
  dsimp only
  cases hget : s.processes.get? i with
  | none => simpa [hget] using hs
  | some p =>
    simp only [hget]
    split
    · next hc =>
      dsimp only
      exact forall_mem_set P hs (harr p hc.1 (hs p (List.get?_mem hget)))
    · exact hs

theorem mlqExecuteQueue_pres (P : Process → Prop)
    (hdp : ∀ (t : Int) (q : Process), q.state = ProcessState.READY → P q →
      P (dispatchPrep t q))
    (hex : ∀ (q : Process) (t : Int), P q → P (q.execute t).2)
    (hwc : ∀ (t a pid : Int) (q : Process), P q → P (waitCredit t a pid q))
    (hcomp : ∀ (q : Process) (ct ta : Int), P q → q.remainingTime = 0 →
      P { q with
        state := ProcessState.TERMINATED
        completionTime := ct
        turnaroundTime := ta })
    (hreq : ∀ q : Process, P q → ¬ q.remainingTime = 0 →
      P { q with state := ProcessState.READY })
    (cfg : SchedulerConfig) (queueIdx : Nat) (st : MLQLoopState)
    (h : ∀ q ∈ st.processes, P q) :
    ∀ q ∈ (mlqExecuteQueue cfg queueIdx st).processes, P q := by
  unfold mlqExecuteQueue
  cases hq : st.queues.get? queueIdx with
  | none => exact h
  | some ql =>
    dsimp only
    cases ql with
    | nil => exact h
    | cons processIdx restQ =>
      dsimp only
      cases hget : st.processes.get? processIdx with
      | none => exact h
      | some p =>
        dsimp only
        intro q hq2
        split at hq2
        · exact h q hq2
        · next hgd =>
          have hready : p.state = ProcessState.READY := by
            by_contra hcon
            exact hgd (Or.inl hcon)
          have hP := h p (List.get?_mem hget)
          have h2 := hdp st.currentTime p hready hP
          have h3 := hex (dispatchPrep st.currentTime p)
            (mlqQueueQuantum cfg queueIdx) h2
          repeat' split at hq2
          all_goals try dsimp only at hq2
          all_goals
            first
            | exact forall_mem_dispatch_chain P _ processIdx _ _ _ h h2 h3
                (fun r hr => hwc _ _ _ r hr)
                (hcomp _ _ _ h3 (by assumption)) q hq2
            | exact forall_mem_dispatch_chain P _ processIdx _ _ _ h h2 h3
                (fun r hr => hwc _ _ _ r hr)
                (hreq _ h3 (by assumption)) q hq2

theorem mlqLoop_pres (P : Process → Prop)
    (harr : ∀ q : Process, q.state = ProcessState.NEW → P q →
      P { q with state := ProcessState.READY })
    (hdp : ∀ (t : Int) (q : Process), q.state = ProcessState.READY → P q →
      P (dispatchPrep t q))
    (hex : ∀ (q : Process) (t : Int), P q → P (q.execute t).2)
    (hwc : ∀ (t a pid : Int) (q : Process), P q → P (waitCredit t a pid q))
    (hcomp : ∀ (q : Process) (ct ta : Int), P q → q.remainingTime = 0 →
      P { q with
        state := ProcessState.TERMINATED
        completionTime := ct
        turnaroundTime := ta })
    (hreq : ∀ q : Process, P q → ¬ q.remainingTime = 0 →
      P { q with state := ProcessState.READY })
    (cfg : SchedulerConfig) (fuel : Nat) :
    ∀ L : MLQLoopState, (∀ q ∈ L.processes, P q) →
      ∀ q ∈ (mlqLoop cfg fuel L).processes, P q := by
  induction fuel with
  | zero =>
    intro L h
    exact h
  | succ fuel ih =>
    intro L h
    unfold mlqLoop
    split
    · dsimp only
      cases hact : getActiveQueue (mlqArrivals L).queues with
      | none =>
        dsimp only
        exact ih _ (mlqArrivals_pres P harr L h)
      | some aq =>
        dsimp only
        refine ih _ ?_
        intro q hq
        exact mlqExecuteQueue_pres P hdp hex hwc hcomp hreq cfg aq _
          (mlqArrivals_pres P harr L h) q hq
    · exact h

theorem mlqInitProcess_ql (nQ : Nat) (p : Process) :
    (mlqInitProcess nQ p).queueLevel = 0 := by
  unfold mlqInitProcess Process.reset
  dsimp only
  split <;> rfl

theorem mlqInitProcess_inv (nQ : Nat) (p : Process) (h : p.burstTime ≠ 0) :
    procInvariant (mlqInitProcess nQ p) := by
  unfold mlqInitProcess Process.reset
  dsimp only
  split <;> simp [procInvariant, h]

theorem mlqRun_queueLevel (fuel : Nat) (st : MLQState) :
    ∀ q ∈ (mlqRun fuel st).processes, q.queueLevel = 0 := by
  intro q hq
  have hq2 : q ∈ (mlqLoop st.cfg fuel (mlqRunInitState st)).processes := hq
  refine mlqLoop_pres (fun r => r.queueLevel = 0)
    (fun r _ hr => hr)
    (fun t r _ hr => by
      show (dispatchPrep t r).queueLevel = 0
      rw [dispatchPrep_queueLevel]
      exact hr)
    (fun r t hr => by
      show (r.execute t).2.queueLevel = 0
      rw [(execute_preserved r t).2.2.2.2.2.2.2.2]
      exact hr)
    (fun t a pid r hr => by
      show (waitCredit t a pid r).queueLevel = 0
      unfold waitCredit
      split
      · exact hr
      · exact hr)
    (fun r ct ta hr _ => hr)
    (fun r hr _ => hr)
    st.cfg fuel (mlqRunInitState st) ?_ q hq2
  intro r hr
  obtain ⟨p0, _, rfl⟩ := List.mem_map.mp hr
  exact mlqInitProcess_ql st.numQueues p0

theorem mlqArrivals_other_queues (L : MLQLoopState)
    (h : ∀ q ∈ L.processes, q.queueLevel = 0) (j : Nat) (hj : j ≠ 0) :
    (mlqArrivals L).queues.get? j = L.queues.get? j := by
  unfold mlqArrivals
  refine (foldl_invariant _
    (fun s => (∀ q ∈ s.processes, q.queueLevel = 0) ∧
      s.queues.get? j = L.queues.get? j) ?_ _ L ⟨h, rfl⟩).2
  intro s i hs
  dsimp only
  cases hget : s.processes.get? i with
  | none => simpa [hget] using hs
  | some p =>
    simp only [hget]
    split
    · next hc =>
      dsimp only
      refine ⟨forall_mem_set _ hs.1 (hs.1 p (List.get?_mem hget)), ?_⟩
      have hql : p.queueLevel = 0 := hs.1 p (List.get?_mem hget)
      rw [show ({ p with state := ProcessState.READY } : Process).queueLevel
          = p.queueLevel from rfl, hql]
      rw [queuePush_get?_ne _ _ _ _ (by simpa using hj)]
      exact hs.2
    · exact hs


theorem rrArriveRange_processes_pred (P : Process → Prop)
    (hP : ∀ (t : Int) (q : Process), P q → P (arrivalPromote t q))
    (a : Int) (st : RRState) :
    ∃ g : Process → Process,
      (rrArriveRange a st).processes = st.processes.map g ∧
      ∀ q, P q → P (g q) := by
  unfold rrArriveRange
  generalize List.range (st.currentTime - a).toNat = l
  induction l generalizing st with
  | nil => exact ⟨id, by simp, fun q h => h⟩
  | cons k rest ih =>
    obtain ⟨g, hg, hpres⟩ := ih (rrArrive (a + 1 + (k : Int)) st)
    refine ⟨g ∘ arrivalPromote (a + 1 + (k : Int)), ?_, ?_⟩
    · rw [List.foldl_cons, hg, rrArrive_processes, List.map_map]
    · intro q hq
      exact hpres _ (hP _ _ hq)

theorem overwrite_inv (a : Int) (idx : Nat) (p3 pc : Process)
    (st3 : RRState) (l : List Process)
    (hst3 : st3.processes = l.set idx p3)
    (hl : ∀ q ∈ l, procInvariant q)
    (hpc : procInvariant pc) :
    ∀ q ∈ (rrEnqueueScan (some idx) (rrArriveRange a st3)).processes.set idx pc,
      procInvariant q := by
  obtain ⟨g, hg, hpres⟩ := rrArriveRange_processes_pred procInvariant
    (fun t q hq => arrivalPromote_inv t q hq) a st3
  rw [rrEnqueueScan_processes, hg, hst3, List.map_set, List.set_set]
  intro q hq
  rcases List.mem_or_eq_of_mem_set hq with hq2 | rfl
  · obtain ⟨p', hp', rfl⟩ := List.mem_map.mp hq2
    exact hpres _ (hl p' hp')
  · exact hpc

theorem rrDispatch_inv (idx : Nat) (p : Process) (st : RRState)
    (h : ∀ q ∈ st.processes, procInvariant q) :
    ∀ q ∈ (rrDispatch idx p st).processes, procInvariant q := by
  unfold rrDispatch
  dsimp only
  intro q hq
  repeat' split at hq
  all_goals (
    dsimp only at hq
    first
    | exact overwrite_inv _ idx _ _ _ st.processes rfl h
        (inv_rr_complete _ _ _ _ (by assumption)) q hq
    | exact overwrite_inv _ idx _ _ _ st.processes rfl h
        (inv_rr_requeue _ (by assumption)) q hq)

theorem rrLoop_inv (fuel : Nat) (st : RRState)
    (h : ∀ q ∈ st.processes, procInvariant q) :
    ∀ q ∈ (rrLoop fuel st).processes, procInvariant q := by
  induction fuel generalizing st with
  | zero => exact h
  | succ fuel ih =>
    unfold rrLoop
    split
    · exact h
    · dsimp only
      have h2 : ∀ q ∈ (rrEnqueueScan none
          (rrArrive st.currentTime st)).processes, procInvariant q := by
        rw [rrEnqueueScan_processes, rrArrive_processes]
        intro q hq
        obtain ⟨p', hp', rfl⟩ := List.mem_map.mp hq
        exact arrivalPromote_inv _ _ (h p' hp')
      rcases hqq : (rrEnqueueScan none (rrArrive st.currentTime st)).processQueue
        with _ | ⟨idx, rest⟩
      · dsimp only
        by_cases hna : rrNextArrival
            (rrEnqueueScan none (rrArrive st.currentTime st)).processes
            (rrEnqueueScan none (rrArrive st.currentTime st)).currentTime ≠ intMax
        · rw [if_pos hna]
          exact ih _ h2
        · rw [if_neg hna]
          exact h2
      · dsimp only
        rcases hget :
            ((rrEnqueueScan none (rrArrive st.currentTime st)).processes.get? idx)
          with _ | p
        · exact ih _ h2
        · dsimp only
          by_cases hc : p.isCompleted = true
          · rw [if_pos hc]
            exact ih _ h2
          · rw [if_neg hc]
            exact ih _ (rrDispatch_inv idx p _ h2)


theorem findHighestPriority_ready (procs : List Process) (time : Int) (j : Nat)
    (h : findHighestPriority procs time = some j) :
    ∃ p, procs.get? j = some p ∧ p.state = ProcessState.READY ∧
      p.arrivalTime ≤ time := by
  unfold findHighestPriority at h
  refine foldl_invariant_mem _
    (fun acc : Int × Option Nat => ∀ m, acc.2 = some m →
      ∃ p, procs.get? m = some p ∧ p.state = ProcessState.READY ∧
        p.arrivalTime ≤ time)
    procs.enum (intMax, none) ?_ ?_ j h
  · intro pair hpair acc hacc m hm
    obtain ⟨k, p⟩ := pair
    dsimp only at hm
    repeat' split at hm
    all_goals
      first
      | exact hacc m hm
      | (injection hm with hm2
         subst hm2
         have hcond : p.state = ProcessState.READY ∧ p.arrivalTime ≤ time := by
           assumption
         exact ⟨p, enum_get? hpair, hcond.1, hcond.2⟩)
  · intro m hm
    exact absurd hm (by simp)

theorem prioArrivals_inv (st : PrioState) (hptr : st.currentProcPtr = none)
    (h : ∀ q ∈ st.processes, procInvariant q) :
    (∀ q ∈ (prioArrivals st).processes, procInvariant q) ∧
      (prioArrivals st).currentProcPtr = none := by
  unfold prioArrivals
  refine foldl_invariant _
    (fun s => (∀ q ∈ s.processes, procInvariant q) ∧
      s.currentProcPtr = none) ?_ _ st ⟨h, hptr⟩
  intro s i hs
  dsimp only
  cases hget : s.processes.get? i with
  | none => simpa [hget] using hs
  | some p =>
    simp only [hget]
    by_cases hc : p.state = ProcessState.NEW ∧ p.arrivalTime ≤ s.currentTime
    · rw [if_pos hc]
      try dsimp only
      have hsp : shouldPreempt
          { s with processes :=
              s.processes.set i { p with state := ProcessState.READY } }
          { p with state := ProcessState.READY } = false := by
        unfold shouldPreempt
        dsimp only
        rw [hs.2]
        split
        · rfl
        · rfl
      rw [if_neg (fun hcond => absurd hcond.2 (by simp [hsp]))]
      refine ⟨forall_mem_set _ hs.1 ?_, hs.2⟩
      exact inv_promote p (hs.1 p (List.get?_mem hget))
        (fun hT => absurd (hc.1.symm.trans hT) (by decide))
    · rw [if_neg hc]
      exact hs

theorem applyAging_inv (st : PrioState)
    (h : (∀ q ∈ st.processes, procInvariant q) ∧ st.currentProcPtr = none) :
    (∀ q ∈ (applyAging st).processes, procInvariant q) ∧
      (applyAging st).currentProcPtr = none := by
  unfold applyAging
  by_cases ha : st.cfg.agingEnabled
  · simp only [ha]
    refine foldl_invariant _
      (fun s => (∀ q ∈ s.processes, procInvariant q) ∧
        s.currentProcPtr = none) ?_ _ st h
    intro s i hs
    dsimp only
    cases hget : s.processes.get? i with
    | none => simpa [hget] using hs
    | some p =>
      simp only [hget]
      by_cases hr : p.state = ProcessState.READY
      · rw [if_pos hr]
        try dsimp only
        repeat' split
        all_goals
          first
          | exact ⟨forall_mem_set _ hs.1 (hs.1 p (List.get?_mem hget)), hs.2⟩
          | exact hs
      · rw [if_neg hr]
        exact hs
  · simp [ha]
    exact h

theorem prioSelect_inv (i : Nat) (st : PrioState) (p : Process)
    (hget : st.processes.get? i = some p)
    (hready : p.state = ProcessState.READY)
    (h : (∀ q ∈ st.processes, procInvariant q) ∧ st.currentProcPtr = none) :
    (∀ q ∈ (prioSelect i st).processes, procInvariant q) ∧
      (prioSelect i st).currentProcPtr = none := by
  unfold prioSelect
  rw [hget]
  dsimp only
  have h2 := dispatchPrep_inv st.currentTime p hready (h.1 p (List.get?_mem hget))
  cases hlast : st.timeline.getLast? with
  | none =>
    dsimp only
    exact ⟨forall_mem_set _ h.1 h2, h.2⟩
  | some e =>
    dsimp only
    split
    · exact ⟨forall_mem_set _ h.1 h2, h.2⟩
    · exact ⟨forall_mem_set _ h.1 h2, h.2⟩

theorem prioDispatch_inv (i : Nat) (st : PrioState) (completed : Int)
    (h : (∀ q ∈ st.processes, procInvariant q) ∧ st.currentProcPtr = none) :
    (∀ q ∈ (prioDispatch i st completed).1.processes, procInvariant q) ∧
      (prioDispatch i st completed).1.currentProcPtr = none := by
  unfold prioDispatch
  cases hget : st.processes.get? i with
  | none => exact h
  | some p =>
    dsimp only
    have hp2 : ∀ t : Int, procInvariant (p.execute t).2 :=
      fun t => execute_inv p t (h.1 p (List.get?_mem hget))
    constructor
    · intro q hq
      repeat' split at hq
      all_goals try dsimp only at hq
      all_goals
        first
        | (refine forall_mem_set _ ?_ (inv_complete _ _ _ (by assumption)) q hq
           refine forall_mem_map _ _ ?_
           intro r hr
           exact prioWaitCredit_inv _ _ r (forall_mem_set _ h.1 (hp2 _) r hr))
        | (refine forall_mem_set _ ?_ (inv_requeue _ (by assumption)) q hq
           refine forall_mem_map _ _ ?_
           intro r hr
           exact prioWaitCredit_inv _ _ r (forall_mem_set _ h.1 (hp2 _) r hr))
        | (refine forall_mem_map _ _ ?_ q hq
           intro r hr
           exact prioWaitCredit_inv _ _ r (forall_mem_set _ h.1 (hp2 _) r hr))
    · repeat' split
      all_goals exact h.2

theorem prioLoop_inv (fuel : Nat) :
    ∀ (completed : Int) (st : PrioState),
      (∀ q ∈ st.processes, procInvariant q) → st.currentProcPtr = none →
      ∀ q ∈ (prioLoop fuel completed st).processes, procInvariant q := by
  induction fuel with
  | zero =>
    intro completed st h _
    exact h
  | succ fuel ih =>
    intro completed st h hptr
    unfold prioLoop
    split
    · dsimp only
      have ha := prioArrivals_inv st hptr h
      have hb := applyAging_inv (prioArrivals st) ⟨ha.1, ha.2⟩
      rcases hidx : (applyAging (prioArrivals st)).currentIdx with _ | i
      · rcases hfind : findHighestPriority (applyAging (prioArrivals st)).processes
            (applyAging (prioArrivals st)).currentTime with _ | j
        · dsimp only
          exact ih _ _ hb.1 hb.2
        · dsimp only
          obtain ⟨p, hget, hready, _⟩ := findHighestPriority_ready _ _ j hfind
          have hsel := prioSelect_inv j _ p hget hready ⟨hb.1, hb.2⟩
          have hdis := prioDispatch_inv j _ completed ⟨hsel.1, hsel.2⟩
          exact ih _ _ hdis.1 hdis.2
      · dsimp only
        have hdis := prioDispatch_inv i _ completed ⟨hb.1, hb.2⟩
        exact ih _ _ hdis.1 hdis.2
    · exact h


theorem mlfqBoost_inv (nQ : Nat) (st : MLFQDispatchState)
    (h : ∀ q ∈ st.processes, procInvariant q) :
    ∀ q ∈ (mlfqBoost nQ st).processes, procInvariant q := by
  unfold mlfqBoost
  dsimp only
  intro q hq
  obtain ⟨r, hr, rfl⟩ := List.mem_map.mp hq
  by_cases hc : r.state ≠ ProcessState.TERMINATED
  · rw [if_pos hc]
    exact h r hr
  · rw [if_neg hc]
    exact h r hr

theorem mlfqArrivals_inv (st : MLFQDispatchState)
    (h : ∀ q ∈ st.processes, procInvariant q) :
    ∀ q ∈ (mlfqArrivals st).processes, procInvariant q := by
  unfold mlfqArrivals
  refine foldl_invariant _ (fun s => ∀ q ∈ s.processes, procInvariant q)
    ?_ _ st h
  intro s i hs
  dsimp only
  cases hget : s.processes.get? i with
  | none => simpa [hget] using hs
  | some p =>
    simp only [hget]
    split
    · next hc =>
      dsimp only
      refine forall_mem_set _ hs ?_
      exact inv_promote0 p (hs p (List.get?_mem hget))
        (fun hT => absurd (hc.1.symm.trans hT) (by decide))
    · exact hs

theorem mlfqDispatch_inv (nQ : Nat) (quantums : List Int)
    (cfg : SchedulerConfig) (aq : Nat) (st : MLFQDispatchState)
    (h : ∀ q ∈ st.processes, procInvariant q) :
    ∀ q ∈ (mlfqDispatch nQ quantums cfg aq st).processes, procInvariant q := by
  unfold mlfqDispatch
  cases hq : st.queues.get? aq with
  | none => exact h
  | some ql =>
    dsimp only
    cases ql with
    | nil => exact h
    | cons processIdx restQ =>
      dsimp only
      cases hget : st.processes.get? processIdx with
      | none => exact h
      | some p =>
        dsimp only
        intro q hq2
        split at hq2
        · next hready =>
          have hP := h p (List.get?_mem hget)
          have h2 := dispatchPrep_inv st.currentTime p hready hP
          have h3 := execute_inv (dispatchPrep st.currentTime p)
            (getQuantumForQueue quantums cfg (aq : Int)) h2
          repeat' split at hq2
          all_goals try dsimp only at hq2
          all_goals
            first
            | exact forall_mem_dispatch_chain procInvariant _ processIdx _ _ _
                h h2 h3 (fun r hr => waitCredit_inv _ _ _ r hr)
                (inv_complete _ _ _ (by assumption)) q hq2
            | exact forall_mem_dispatch_chain procInvariant _ processIdx _ _ _
                h h2 h3 (fun r hr => waitCredit_inv _ _ _ r hr)
                (inv_requeue _ (by assumption)) q hq2
            | exact forall_mem_dispatch_chain procInvariant _ processIdx _ _ _
                h h2 h3 (fun r hr => waitCredit_inv _ _ _ r hr)
                (inv_requeue_demote nQ _ (by assumption)) q hq2
        · exact h q hq2

theorem mlfqLoop_inv (nQ : Nat) (quantums : List Int) (cfg : SchedulerConfig)
    (fuel : Nat) :
    ∀ (lastBoost : Int) (L : MLFQDispatchState),
      (∀ q ∈ L.processes, procInvariant q) →
      ∀ q ∈ (mlfqLoop nQ quantums cfg fuel lastBoost L).processes,
        procInvariant q := by
  induction fuel with
  | zero =>
    intro lastBoost L h
    exact h
  | succ fuel ih =>
    intro lastBoost L h
    unfold mlfqLoop
    split
    · dsimp only
      by_cases hb : cfg.agingEnabled ∧
          L.currentTime - lastBoost ≥ cfg.agingThreshold * 5
      · rw [if_pos hb]
        dsimp only
        have hboost := mlfqBoost_inv nQ L h
        cases hact : getActiveQueue (mlfqArrivals (mlfqBoost nQ L)).queues with
        | none =>
          dsimp only
          exact ih _ _ (mlfqArrivals_inv _ hboost)
        | some aq =>
          dsimp only
          exact ih _ _ (mlfqDispatch_inv nQ quantums cfg aq _
            (mlfqArrivals_inv _ hboost))
      · rw [if_neg hb]
        dsimp only
        cases hact : getActiveQueue (mlfqArrivals L).queues with
        | none =>
          dsimp only
          exact ih _ _ (mlfqArrivals_inv _ h)
        | some aq =>
          dsimp only
          exact ih _ _ (mlfqDispatch_inv nQ quantums cfg aq _
            (mlfqArrivals_inv _ h))
    · exact h

theorem mlfqInitProcess_inv (p : Process) (h : p.burstTime ≠ 0) :
    procInvariant (mlfqInitProcess p) := by
  unfold mlfqInitProcess
  dsimp only
  split
  · exact reset_ready_inv p h
  · exact reset_inv p h


/-! ## C5 (amended): Multilevel Queue band assignment -/

/-- C5 amended: `assignToQueue` sends priority at most 2 to queue 0,
priority 3-5 to queue 1 when more than one queue exists, and every remaining
process to queue `min(numQueues - 1, 2)` (the spec's "last available queue"
only for at most three queues); `addProcess` stamps that band on the
inserted process.  But the band is *not* kept afterwards: every `run()`
re-stamps each process and then calls `reset()`, which zeroes the queue
level, so every process the scheduler owns carries queue level 0 throughout
the simulation and still at the end of every `run`, and the run loop's
arrival handler, which enqueues by the stored level, pushes every
late-arriving process into queue 0 regardless of priority (only zero-arrival
processes are enqueued by the freshly computed band, through a local
variable). -/
theorem assignToQueue_bands (nQ : Nat) (st : MLQState) (p : Process) :
    ((mlqAddProcess nQ st p).processes.getLast?.map (·.queueLevel)) =
      some ((assignToQueue p.priority nQ : Nat) : Int) ∧
    (∀ prio : Int, prio ≤ 2 → assignToQueue prio nQ = 0) ∧
    (∀ prio : Int, 2 < prio → prio ≤ 5 → 1 < nQ → assignToQueue prio nQ = 1) ∧
    (∀ prio : Int, 5 < prio → assignToQueue prio nQ = min (nQ - 1) 2) ∧
    (1 ≤ nQ → nQ ≤ 3 → ∀ prio : Int,
      assignToQueue prio nQ = specQueueBand prio nQ) ∧
    (3 < nQ → assignToQueue 6 nQ ≠ specQueueBand 6 nQ) ∧
    (∀ q : Process, (mlqInitProcess nQ q).queueLevel = 0) ∧
    (∀ (fuel : Nat) (ms : MLQState),
      ∀ q ∈ (mlqRun fuel ms).processes, q.queueLevel = 0) ∧
    (∀ L : MLQLoopState, (∀ q ∈ L.processes, q.queueLevel = 0) →
      ∀ j : Nat, j ≠ 0 → (mlqArrivals L).queues.get? j = L.queues.get? j) := by
  refine ⟨?_, ?_, ?_, ?_, ?_, ?_, ?_, ?_, ?_⟩
  · unfold mlqAddProcess
    dsimp only
    rw [show (st.processes ++ [p]).length - 1 = st.processes.length by simp,
      set_concat_last, List.getLast?_concat]
    rfl
  · intro prio h
    simp [assignToQueue, h]
  · intro prio h1 h2 h3
    simp [assignToQueue, h2, h3]
    omega
  · intro prio h
    have h1 : ¬ prio ≤ 2 := by omega
    have h2 : ¬ (prio ≤ 5 ∧ nQ > 1) := by rintro ⟨h5, _⟩; omega
    simp [assignToQueue, h1, h2]
  · intro h1 h3 prio
    unfold assignToQueue specQueueBand
    split
    · rfl
    · split
      · rfl
      · omega
  · intro h
    unfold assignToQueue specQueueBand
    norm_num
    omega
  · intro q
    exact mlqInitProcess_ql nQ q
  · intro fuel ms q hq
    exact mlqRun_queueLevel fuel ms q hq
  · intro L hL j hj
    exact mlqArrivals_other_queues L hL j hj

/-- Witness for C5 amended: a 4-queue scheduler with a priority-6 process
(the clamp case), and the late-arriving priority-6 process of the
counterexample, which finishes its run at queue level 0; the arrival handler
leaves queue 1 of the initial loop state untouched. -/
theorem assignToQueue_bands_witness :
    ((mlqAddProcess 4 (mkMLQ 4 {} []) (mkProcess 1 6 5 0)).processes.getLast?.map
      (·.queueLevel)) =
        some ((assignToQueue (mkProcess 1 6 5 0).priority 4 : Nat) : Int) ∧
    assignToQueue 6 4 ≠ specQueueBand 6 4 ∧
    (⟨1, 6, 2, 0, 2, 0, 2, 0, 4, 0, true, ProcessState.TERMINATED⟩ :
      Process).queueLevel = 0 ∧
    (mlqArrivals (mlqRunInitState (mkMLQ 3 {} [mkProcess 1 6 2 2]))).queues.get? 1
      = (mlqRunInitState (mkMLQ 3 {} [mkProcess 1 6 2 2])).queues.get? 1 := by
  have h4 := assignToQueue_bands 4 (mkMLQ 4 {} []) (mkProcess 1 6 5 0)
  have h3 := assignToQueue_bands 3 (mkMLQ 3 {} []) (mkProcess 1 6 2 2)
  refine ⟨h4.1, h4.2.2.2.2.2.1 (by decide), ?_, ?_⟩
  · exact h3.2.2.2.2.2.2.2.1 8 (mkMLQ 3 {} [mkProcess 1 6 2 2]) _ (by decide)
  · exact h3.2.2.2.2.2.2.2.2 (mlqRunInitState (mkMLQ 3 {} [mkProcess 1 6 2 2]))
      (by decide) 1 (by decide)

/-! ## C6 (amended): remainingTime == 0 iff TERMINATED -/

/-- C6 amended: the equivalence `remainingTime == 0 ↔ state == TERMINATED`
holds on every `Process` reachable through the public interface whose burst
time is nonzero: it holds after construction and after `reset`, it is
preserved by every `execute` call, and it holds for every process owned by
any of the four schedulers (Round Robin, Priority, Multilevel Queue,
Multilevel Feedback Queue) when their `run()` returns, for every fuel bound
and every input set of nonzero-burst processes; a process constructed with
burst time 0 violates the equivalence immediately after construction. -/
theorem remaining_terminated_invariant :
    (∀ pid prio burst arrival : Int, burst ≠ 0 →
      procInvariant (mkProcess pid prio burst arrival)) ∧
    (∀ (p : Process) (t : Int), procInvariant p →
      procInvariant (p.execute t).2) ∧
    (∀ p : Process, p.burstTime ≠ 0 → procInvariant p.reset) ∧
    (∀ (fuel : Nat) (st : RRState),
      (∀ p ∈ st.processes, p.burstTime ≠ 0) →
      ∀ p ∈ (rrRun fuel st).processes, procInvariant p) ∧
    (∀ (fuel : Nat) (st : PrioState), st.currentProcPtr = none →
      (∀ p ∈ st.processes, p.burstTime ≠ 0) →
      ∀ p ∈ (prioRun fuel st).processes, procInvariant p) ∧
    (∀ (fuel : Nat) (st : MLQState),
      (∀ p ∈ st.processes, p.burstTime ≠ 0) →
      ∀ p ∈ (mlqRun fuel st).processes, procInvariant p) ∧
    (∀ (fuel : Nat) (st : MLFQState),
      (∀ p ∈ st.processes, p.burstTime ≠ 0) →
      ∀ p ∈ (mlfqRun fuel st).processes, procInvariant p) := by
  refine ⟨?_, ?_, ?_, ?_, ?_, ?_, ?_⟩
  · intro pid prio burst arrival h
    simp [procInvariant, mkProcess, h]
  · intro p t h
    exact execute_inv p t h
  · intro p h
    exact reset_inv p h
  · intro fuel st hb p hmem
    unfold rrRun at hmem
    split at hmem
    · next hempty =>
      rw [hempty] at hmem
      exact absurd hmem (List.not_mem_nil p)
    · dsimp only at hmem
      refine rrLoop_inv fuel _ ?_ p hmem
      rw [rrArrive_processes]
      intro q hq
      obtain ⟨p', hp', rfl⟩ := List.mem_map.mp hq
      refine arrivalPromote_inv _ _ ?_
      dsimp only at hp'
      have hp2 := mem_sortByArrival hp'
      rw [rrReset] at hp2
      dsimp only at hp2
      obtain ⟨p0, hp0, rfl⟩ := List.mem_map.mp hp2
      exact reset_inv p0 (hb p0 hp0)
  · intro fuel st hptr hb p hmem
    unfold prioRun at hmem
    dsimp only at hmem
    refine prioLoop_inv fuel 0 _ ?_ ?_ p hmem
    · intro q hq
      obtain ⟨p0, hp0, rfl⟩ := List.mem_map.mp hq
      try dsimp only
      split
      · exact reset_ready_inv p0 (hb p0 hp0)
      · exact reset_inv p0 (hb p0 hp0)
    · exact hptr
  · intro fuel st hb p hmem
    have hmem2 : p ∈ (mlqLoop st.cfg fuel (mlqRunInitState st)).processes := hmem
    refine mlqLoop_pres procInvariant
      (fun r hnew hr => inv_promote r hr
        (fun hT => absurd (hnew.symm.trans hT) (by decide)))
      (fun t r hready hr => dispatchPrep_inv t r hready hr)
      (fun r t hr => execute_inv r t hr)
      (fun t a pid r hr => waitCredit_inv t a pid r hr)
      (fun r ct ta _ h0 => inv_complete r ct ta h0)
      (fun r _ h0 => inv_requeue r h0)
      st.cfg fuel (mlqRunInitState st) ?_ p hmem2
    intro q hq
    obtain ⟨p0, hp0, rfl⟩ := List.mem_map.mp hq
    exact mlqInitProcess_inv st.numQueues p0 (hb p0 hp0)
  · intro fuel st hb p hmem
    have hmem2 : p ∈ (mlfqLoop st.numQueues (mlfqQuantums st.numQueues st.cfg)
        st.cfg fuel 0 (mlfqRunInit st)).processes := hmem
    refine mlfqLoop_inv st.numQueues (mlfqQuantums st.numQueues st.cfg)
      st.cfg fuel 0 (mlfqRunInit st) ?_ p hmem2
    intro q hq
    obtain ⟨p0, hp0, rfl⟩ := List.mem_map.mp hq
    exact mlfqInitProcess_inv p0 (hb p0 hp0)

/-- Witness for C6 amended: a freshly built process with burst 7 satisfies
the invariant, and so does the terminated process produced by a one-process
Round Robin run. -/
theorem remaining_terminated_invariant_witness :
    procInvariant (mkProcess 2 0 7 0) ∧
    procInvariant (⟨1, 0, 3, 0, 0, 0, 3, 0, 3, 0, true,
      ProcessState.TERMINATED⟩ : Process) := by
  constructor
  · exact remaining_terminated_invariant.1 2 0 7 0 (by decide)
  · exact remaining_terminated_invariant.2.2.2.1 8 rrSingle (by decide) _
      (by decide)

end CPUSched

